import Mathlib

/-!
Verification of the petmon intake pipeline (`server/app/routers/gemini.py`).

The development is a shallow embedding of the `/parse` and `/analyze` route
logic: Python strings become `List Char`, JSON values decoded by `json.loads`
become the inductive `Json`, `datetime` objects become `PyDateTime`, and every
Python operation that can raise is modelled in `Except PyErr`.

Modelling conventions, stated once here:
* `json.loads` itself and the generative-model call are external inputs; the
  route functions take the decoded document (or a decoding function) as a
  parameter.
* Python `datetime.fromisoformat` is modelled in its pre-3.11 form
  (date `YYYY-MM-DD`, optional single separator character, time
  `HH[:MM[:SS[.fff|.ffffff]]]`, optional offset `+HH:MM`/`-HH:MM`); range
  validation happens at datetime construction, modelled as a final gate.
* Python `float(...)` string parsing is modelled for the sign/digits/decimal
  point forms (no exponents, underscores, inf/nan); `str(...)` of containers
  and numbers is modelled approximately (no claim depends on that text).
* `datetime` arithmetic past year 9999 raises `OverflowError` in Python; the
  model mirrors that bound.
-/

namespace Petmon

/-- Characters of a Lean string literal, used to write Python strings. -/
def chars (s : String) : List Char := s.data

/-- Python `str.isspace`-style whitespace recognised by `str.strip` and `\s`
(ASCII subset; the repository's patterns only meet ASCII whitespace). -/
def pyIsSpace (c : Char) : Bool :=
  c = ' ' || c = '\t' || c = '\n' || c = '\r' || c = Char.ofNat 11 || c = Char.ofNat 12

/-- Python `str.strip()`: drop whitespace from both ends. -/
def strip (s : List Char) : List Char :=
  ((s.dropWhile pyIsSpace).reverse.dropWhile pyIsSpace).reverse

/-- Python `str.lower()` (ASCII case mapping; the table keywords are ASCII or
Chinese, which `lower` leaves unchanged). -/
def lower (s : List Char) : List Char := s.map Char.toLower

/-- Python `str.upper()` (ASCII case mapping). -/
def upper (s : List Char) : List Char := s.map Char.toUpper

/-- `needle` occurs at the head of `s`. -/
def startsWith : List Char → List Char → Bool
  | _, [] => true
  | [], _ :: _ => false
  | c :: cs, d :: ds => c = d && startsWith cs ds

/-- Python `needle in haystack` substring test. -/
def strContains : List Char → List Char → Bool
  | [], needle => needle.isEmpty
  | c :: rest, needle => startsWith (c :: rest) needle || strContains rest needle

/-- Strip `pat` from the head of `s`, returning the remainder. -/
def stripHead : List Char → List Char → Option (List Char)
  | [], s => some s
  | _ :: _, [] => none
  | p :: ps, c :: cs => if c = p then stripHead ps cs else none

/-- Fuel-indexed body of `replaceStr`; one unit of fuel per character of the
original string always suffices for a non-empty pattern. -/
def replaceStrAux (pat rep : List Char) : ℕ → List Char → List Char
  | 0, s => s
  | _ + 1, [] => []
  | fuel + 1, c :: rest =>
    match stripHead pat (c :: rest) with
    | some r => rep ++ replaceStrAux pat rep fuel r
    | none => c :: replaceStrAux pat rep fuel rest

/-- Python `haystack.replace(pat, rep)` for non-empty `pat`: leftmost,
non-overlapping, all occurrences. -/
def replaceStr (pat rep : List Char) (s : List Char) : List Char :=
  replaceStrAux pat rep s.length s

/-- `clean_json_string` from the source: strip code-fence markers, then strip
surrounding whitespace. -/
def cleanJsonString (text : List Char) : List Char :=
  strip (replaceStr (chars "```") [] (replaceStr (chars "```json") [] text))

/-- JSON-like Python values produced by `json.loads` (object keys keep their
insertion order, as Python dicts do). -/
inductive Json where
  | null : Json
  | bool : Bool → Json
  | num : ℚ → Json
  | str : List Char → Json
  | arr : List Json → Json
  | obj : List (List Char × Json) → Json

/-- Python truthiness of a JSON value. -/
def Json.truthy : Json → Bool
  | .null => false
  | .bool b => b
  | .num q => q ≠ 0
  | .str s => !s.isEmpty
  | .arr xs => !xs.isEmpty
  | .obj fs => !fs.isEmpty

/-- `d.get(k)`: first binding of `k` (decoded objects have unique keys). -/
def getKey : List (List Char × Json) → List Char → Option Json
  | [], _ => none
  | (k', v) :: rest, k => if k' = k then some v else getKey rest k

/-- `d[k] = v`: replace in place when present, append when absent
(Python dict update keeps the key's position). -/
def setKey : List (List Char × Json) → List Char → Json → List (List Char × Json)
  | [], k, v => [(k, v)]
  | (k', v') :: rest, k, v =>
    if k' = k then (k, v) :: rest else (k', v') :: setKey rest k v

/-- Python `x or default` where `x` is `d.get(k)` (a missing key is `None`,
hence falsy). -/
def pyOr (o : Option Json) (dflt : Json) : Json :=
  match o with
  | some v => if v.truthy then v else dflt
  | none => dflt

/-- Python exceptions that the embedded routes can raise (FastAPI turns the
uncaught ones into a 500 response; `HTTPException` is raised deliberately). -/
inductive PyErr where
  | attributeError : PyErr
  | typeError : PyErr
  | overflowError : PyErr
  | httpError500 : PyErr
deriving DecidableEq

/-- The decimal digit character for `n % 10`. -/
def digitChar (n : ℕ) : Char := Char.ofNat (48 + n % 10)

/-- Zero-padded `k`-digit decimal rendering of `n % 10 ^ k`, most significant
digit first (the behaviour of `"%0kd"` on the in-range values Python's
`datetime` can hold). -/
def renderPad : ℕ → ℕ → List Char
  | 0, _ => []
  | k + 1, n => digitChar (n / 10 ^ k) :: renderPad k n

/-- Numeric value of a run of decimal digit characters. -/
def digitsToNat (ds : List Char) : ℕ :=
  ds.foldl (fun acc c => acc * 10 + (c.toNat - 48)) 0

/-- Read exactly `k` decimal digits from the front of `s`, accumulating into
`acc`; `none` if a non-digit or the end of input intervenes. -/
def readDigitsAux : ℕ → ℕ → List Char → Option (ℕ × List Char)
  | acc, 0, s => some (acc, s)
  | _, _ + 1, [] => none
  | acc, k + 1, c :: s =>
    if c.isDigit then readDigitsAux (acc * 10 + (c.toNat - 48)) k s else none

/-- Read exactly `k` decimal digits from the front of `s`. -/
def readDigits (k : ℕ) (s : List Char) : Option (ℕ × List Char) :=
  readDigitsAux 0 k s

/-- Consume one expected character. -/
def expectChar (c : Char) : List Char → Option (List Char)
  | [] => none
  | d :: s => if d = c then some s else none

/-- Python `datetime` values.  `tzMinutes` is the UTC offset in minutes of an
aware datetime, `none` for a naive one (the model restricts offsets to whole
minutes, the only form the embedded parser accepts and `isoformat` prints). -/
structure PyDateTime where
  year : ℕ
  month : ℕ
  day : ℕ
  hour : ℕ
  minute : ℕ
  second : ℕ
  microsecond : ℕ
  tzMinutes : Option ℤ
deriving DecidableEq

/-- Gregorian leap year. -/
def isLeap (y : ℕ) : Bool := (y % 4 = 0 && y % 100 ≠ 0) || y % 400 = 0

/-- Days in a month of the proleptic Gregorian calendar. -/
def daysInMonth (y m : ℕ) : ℕ :=
  if m = 2 then (if isLeap y then 29 else 28)
  else if m = 4 ∨ m = 6 ∨ m = 9 ∨ m = 11 then 30
  else 31

/-- Proleptic-Gregorian day number of `y-m-d` counted from 0000-03-01
(the era-based civil-calendar formula, all-natural arithmetic). -/
def daysFromCivil (y m d : ℕ) : ℕ :=
  let y' := if m ≤ 2 then y - 1 else y
  let era := y' / 400
  let yoe := y' % 400
  let mp := (m + 9) % 12
  let doy := (153 * mp + 2) / 5 + (d - 1)
  let doe := yoe * 365 + yoe / 4 - yoe / 100 + doy
  era * 146097 + doe

/-- Inverse of `daysFromCivil`: the `(year, month, day)` of a day number. -/
def civilFromDays (z : ℕ) : ℕ × ℕ × ℕ :=
  let era := z / 146097
  let doe := z % 146097
  let yoe := (doe - doe / 1460 + doe / 36524 - doe / 146096) / 365
  let y' := yoe + era * 400
  let doy := doe - (365 * yoe + yoe / 4 - yoe / 100)
  let mp := (5 * doy + 2) / 153
  let d := doy - (153 * mp + 2) / 5 + 1
  let m := if mp < 10 then mp + 3 else mp - 9
  (if m ≤ 2 then y' + 1 else y', m, d)

/-- `dt + timedelta(days = n)`: calendar-date addition keeping the time-of-day
and tzinfo.  Python raises `OverflowError` when the result leaves the
supported `datetime` range (years 1 to 9999); that case is `none` here. -/
def pyAddDays (dt : PyDateTime) (n : ℕ) : Option PyDateTime :=
  let z := daysFromCivil dt.year dt.month dt.day + n
  let c := civilFromDays z
  if 1 ≤ c.1 ∧ c.1 ≤ 9999 then
    some { dt with year := c.1, month := c.2.1, day := c.2.2 }
  else none

/-- The UTC-offset suffix printed by `datetime.isoformat` for an aware value
(sign, two-digit hours, colon, two-digit minutes); empty for a naive one. -/
def renderOffset : Option ℤ → List Char
  | none => []
  | some o => (if 0 ≤ o then '+' else '-') ::
      (renderPad 2 (o.natAbs / 60) ++ ':' :: renderPad 2 (o.natAbs % 60))

/-- `datetime.isoformat()`: `YYYY-MM-DDTHH:MM:SS`, with `.ffffff` exactly when
the microsecond field is non-zero, and the offset suffix for aware values. -/
def isoformat (dt : PyDateTime) : List Char :=
  renderPad 4 dt.year ++ '-' ::
    (renderPad 2 dt.month ++ '-' ::
      (renderPad 2 dt.day ++ 'T' ::
        (renderPad 2 dt.hour ++ ':' ::
          (renderPad 2 dt.minute ++ ':' ::
            (renderPad 2 dt.second ++
              ((if dt.microsecond = 0 then [] else '.' :: renderPad 6 dt.microsecond) ++
                renderOffset dt.tzMinutes))))))

/-- Trailing UTC-offset of an ISO time string: absent, or `±HH:MM` consuming
the rest of the input. -/
def readTzPart : List Char → Option (Option ℤ)
  | [] => some none
  | c :: rest =>
    if c = '+' ∨ c = '-' then do
      let x1 ← readDigits 2 rest
      let r2 ← expectChar ':' x1.2
      let x2 ← readDigits 2 r2
      if x2.2 = [] then
        some (some ((if c = '+' then 1 else -1) * ((x1.1 : ℤ) * 60 + (x2.1 : ℤ))))
      else none
    else none

/-- Optional fractional-second part: `.fff` or `.ffffff` (the two widths
`fromisoformat` accepts), converted to microseconds; absent means zero. -/
def readFracPart : List Char → Option (ℕ × List Char)
  | [] => some (0, [])
  | c :: rest =>
    if c = '.' then
      let ds := rest.takeWhile Char.isDigit
      let r := rest.dropWhile Char.isDigit
      if ds.length = 6 then some (digitsToNat ds, r)
      else if ds.length = 3 then some (digitsToNat ds * 1000, r)
      else none
    else some (0, c :: rest)

/-- ISO time-of-day: `HH[:MM[:SS[.frac]]]` followed by an optional offset,
consuming the whole input. -/
def readTime (s : List Char) : Option (ℕ × ℕ × ℕ × ℕ × Option ℤ) := do
  let xh ← readDigits 2 s
  match xh.2 with
  | c :: r2 =>
    if c = ':' then do
      let xm ← readDigits 2 r2
      match xm.2 with
      | c2 :: r4 =>
        if c2 = ':' then do
          let xs ← readDigits 2 r4
          let xf ← readFracPart xs.2
          let tz ← readTzPart xf.2
          some (xh.1, xm.1, xs.1, xf.1, tz)
        else do
          let tz ← readTzPart (c2 :: r4)
          some (xh.1, xm.1, 0, 0, tz)
      | [] => do
        let tz ← readTzPart []
        some (xh.1, xm.1, 0, 0, tz)
    else do
      let tz ← readTzPart (c :: r2)
      some (xh.1, 0, 0, 0, tz)
  | [] => do
    let tz ← readTzPart []
    some (xh.1, 0, 0, 0, tz)

/-- Structural part of `datetime.fromisoformat`: `YYYY-MM-DD`, optionally one
separator character of any kind followed by a time-of-day. -/
def fromIsoRaw (s : List Char) : Option PyDateTime := do
  let xy ← readDigits 4 s
  let r2 ← expectChar '-' xy.2
  let xmo ← readDigits 2 r2
  let r4 ← expectChar '-' xmo.2
  let xd ← readDigits 2 r4
  match xd.2 with
  | [] => some ⟨xy.1, xmo.1, xd.1, 0, 0, 0, 0, none⟩
  | _sep :: rest => do
    let t ← readTime rest
    some ⟨xy.1, xmo.1, xd.1, t.1, t.2.1, t.2.2.1, t.2.2.2.1, t.2.2.2.2⟩

/-- Offset validity: naive, or an aware offset strictly below one day. -/
def tzOk : Option ℤ → Bool
  | none => true
  | some o => o.natAbs ≤ 1439

/-- Calendar-date validity (`MINYEAR`/`MAXYEAR`, month, day-of-month). -/
def dateOkB (y m d : ℕ) : Bool :=
  1 ≤ y && y ≤ 9999 && 1 ≤ m && m ≤ 12 && 1 ≤ d && d ≤ daysInMonth y m

/-- Time-of-day and offset validity. -/
def timeOkB (dt : PyDateTime) : Bool :=
  dt.hour ≤ 23 && dt.minute ≤ 59 && dt.second ≤ 59 &&
    dt.microsecond ≤ 999999 && tzOk dt.tzMinutes

/-- The range checks Python performs when constructing the parsed `datetime`. -/
def validDtB (dt : PyDateTime) : Bool :=
  dateOkB dt.year dt.month dt.day && timeOkB dt

/-- `datetime.fromisoformat`: structural parse, then construction-time range
validation (a failure of either is a `ValueError`, modelled as `none`). -/
def fromIso (s : List Char) : Option PyDateTime := do
  let dt ← fromIsoRaw s
  if validDtB dt then some dt else none

/-- `value.replace('Z', '+00:00')` (every occurrence). -/
def replaceZ : List Char → List Char
  | [] => []
  | c :: s =>
    if c = 'Z' then '+' :: '0' :: '0' :: ':' :: '0' :: '0' :: replaceZ s
    else c :: replaceZ s

/-- `_parse_iso_date` from the source: falsy input resolves to nothing;
otherwise normalise `Z`, try a full `fromisoformat`, and on failure retry on
the part before the first `'T'`; both failing is not an error. -/
def parseIsoDateStr (value : List Char) : Option PyDateTime :=
  if value.isEmpty then none
  else
    (fromIso (replaceZ value)).orElse
      (fun _ => fromIso ((replaceZ value).takeWhile (fun c => c ≠ 'T')))

/-- Match of `in\s+(\d+)\s+day` (case-insensitive) anchored at the head of
`s`, returning the captured number.  Greedy runs are maximal; since digits,
whitespace and letters are disjoint character classes, regex backtracking
never shortens a run, so maximal-munch is exact. -/
def matchInDaysAt : List Char → Option ℕ
  | c1 :: c2 :: rest =>
    if (c1 = 'i' || c1 = 'I') && (c2 = 'n' || c2 = 'N') then
      let sp1 := rest.takeWhile pyIsSpace
      let r1 := rest.dropWhile pyIsSpace
      if sp1.isEmpty then none
      else
        let ds := r1.takeWhile Char.isDigit
        let r2 := r1.dropWhile Char.isDigit
        if ds.isEmpty then none
        else
          let sp2 := r2.takeWhile pyIsSpace
          let r3 := r2.dropWhile pyIsSpace
          if sp2.isEmpty then none
          else
            match r3 with
            | d1 :: d2 :: d3 :: _ =>
              if (d1 = 'd' || d1 = 'D') && (d2 = 'a' || d2 = 'A') &&
                  (d3 = 'y' || d3 = 'Y') then
                some (digitsToNat ds)
              else none
            | _ => none
    else none
  | _ => none

/-- `re.search(r'in\s+(\d+)\s+day', text, re.IGNORECASE)`: leftmost match. -/
def scanInDays : List Char → Option ℕ
  | [] => none
  | c :: rest => (matchInDaysAt (c :: rest)).orElse (fun _ => scanInDays rest)

/-- Match of `(\d+)\s*天后` anchored at the head of `s`. -/
def matchZhDaysAt (s : List Char) : Option ℕ :=
  let ds := s.takeWhile Char.isDigit
  let r := s.dropWhile Char.isDigit
  if ds.isEmpty then none
  else
    match r.dropWhile pyIsSpace with
    | c1 :: c2 :: _ =>
      if c1 = '天' ∧ c2 = '后' then some (digitsToNat ds) else none
    | _ => none

/-- `re.search(r'(\d+)\s*天后', text)`: leftmost match. -/
def scanZhDays : List Char → Option ℕ
  | [] => none
  | c :: rest => (matchZhDaysAt (c :: rest)).orElse (fun _ => scanZhDays rest)

/-- The relative-day offset recognised by `_infer_due_date`, following the
source's priority chain exactly. -/
def inferDueDays (text : List Char) : Option ℕ :=
  if strContains text (chars "明天") || strContains text (chars "tomorrow") then some 1
  else if strContains text (chars "后天") then some 2
  else
    match scanInDays text with
    | some n => some n
    | none =>
      match scanZhDays text with
      | some n => some n
      | none =>
        if strContains text (chars "下周") ||
            strContains (lower text) (chars "next week") then some 7
        else none

/-- `_infer_due_date`: `today` is the current local day at midnight; a matched
offset is added with `timedelta`, which can raise `OverflowError` past the
`datetime` range. -/
def inferDueDate (today : PyDateTime) (text : List Char) :
    Except PyErr (Option PyDateTime) :=
  match inferDueDays text with
  | none => .ok none
  | some n =>
    match pyAddDays today n with
    | some dt => .ok (some dt)
    | none => .error .overflowError

/-- The bilingual keyword → log-type table, in the source's insertion order
(Python dicts iterate in insertion order). -/
def keywordMap : List (List Char × List Char) :=
  [ (chars "sleep", chars "Sleep"), (chars "nap", chars "Sleep"),
    (chars "睡", chars "Sleep"), (chars "困", chars "Sleep"),
    (chars "feed", chars "Feeding"), (chars "喂", chars "Feeding"),
    (chars "吃", chars "Feeding"), (chars "猫粮", chars "Feeding"),
    (chars "狗粮", chars "Feeding"),
    (chars "drink", chars "Drinking"), (chars "喝", chars "Drinking"),
    (chars "water", chars "Drinking"),
    (chars "walk", chars "Activity"), (chars "run", chars "Activity"),
    (chars "玩", chars "Activity"), (chars "运动", chars "Activity"),
    (chars "散步", chars "Activity"),
    (chars "toilet", chars "Bathroom"), (chars "bathroom", chars "Bathroom"),
    (chars "尿", chars "Bathroom"), (chars "便", chars "Bathroom"),
    (chars "排泄", chars "Bathroom"),
    (chars "med", chars "Medical"), (chars "药", chars "Medical"),
    (chars "打针", chars "Medical"), (chars "医院", chars "Medical") ]

/-- First keyword of the table occurring in the lowercased input (table
order, not text position), mapped to its log type. -/
def scanKeyword (textLower : List Char) : Option (List Char) :=
  (keywordMap.find? (fun kv => strContains textLower kv.1)).map (fun kv => kv.2)

/-- Python `str(...)`.  `repr` of numbers and containers is approximated (no
normaliser property depends on that text); strings pass through unchanged. -/
def pyStr : Json → List Char
  | .null => chars "None"
  | .bool b => if b then chars "True" else chars "False"
  | .num q => (toString q).data
  | .str s => s
  | .arr _ => chars "[...]"
  | .obj _ => chars "\x7b...\x7d"

/-- Python `float(str)` on the sign/digits/decimal-point forms (exponents,
`inf`/`nan` and underscores are outside the model); `none` is `ValueError`. -/
def strToFloat (s : List Char) : Option ℚ :=
  let t := strip s
  let su : ℚ × List Char :=
    match t with
    | '+' :: r => (1, r)
    | '-' :: r => (-1, r)
    | r => (1, r)
  let ip := su.2.takeWhile Char.isDigit
  let r1 := su.2.dropWhile Char.isDigit
  match r1 with
  | [] => if ip.isEmpty then none else some (su.1 * (digitsToNat ip : ℚ))
  | '.' :: r2 =>
    let fp := r2.takeWhile Char.isDigit
    let r3 := r2.dropWhile Char.isDigit
    if r3 = [] ∧ ¬(ip.isEmpty ∧ fp.isEmpty) then
      some (su.1 * ((digitsToNat ip : ℚ) + (digitsToNat fp : ℚ) / (10 ^ fp.length : ℚ)))
    else none
  | _ => none

/-- Python `float(value)` on a JSON value; `none` models the `TypeError` or
`ValueError` that the source catches. -/
def pyFloat : Json → Option ℚ
  | .num q => some q
  | .bool b => some (if b then 1 else 0)
  | .str s => strToFloat s
  | _ => none

def kIntent : List Char := chars "intent"
def kLogDetails : List Char := chars "logDetails"
def kExpenseDetails : List Char := chars "expenseDetails"
def kMemoDetails : List Char := chars "memoDetails"
def kType : List Char := chars "type"
def kValue : List Char := chars "value"
def kNotes : List Char := chars "notes"
def kTitle : List Char := chars "title"
def kDescription : List Char := chars "description"
def kDueDate : List Char := chars "dueDate"
def kSource : List Char := chars "source"
def kAmount : List Char := chars "amount"
def kCategory : List Char := chars "category"
def kSummary : List Char := chars "summary"
def kRisks : List Char := chars "risks"
def kSuggestions : List Char := chars "suggestions"
def kLastUpdated : List Char := chars "lastUpdated"

/-- Truthiness of `d.get(k)` (missing keys are `None`, hence falsy). -/
def truthyGet (fs : List (List Char × Json)) (k : List Char) : Bool :=
  match getKey fs k with
  | some v => v.truthy
  | none => false

/-- The keyword-loop body: write the first matching table keyword's type, or
leave the details unchanged when no keyword occurs in the input. -/
def logStepScan (input : List Char) (fs : List (List Char × Json)) :
    List (List Char × Json) :=
  match scanKeyword (lower input) with
  | some mapped => setKey fs kType (.str mapped)
  | none => fs

/-- `details.setdefault('type', 'Note')`. -/
def logStepDefault (fs : List (List Char × Json)) : List (List Char × Json) :=
  match getKey fs kType with
  | some _ => fs
  | none => setKey fs kType (.str (chars "Note"))

/-- LOG normalisation, type step: when `details.get('type')` is falsy, run the
keyword scan and then `setdefault('type', 'Note')`. -/
def logStepType (input : List Char) (fs : List (List Char × Json)) :
    List (List Char × Json) :=
  if truthyGet fs kType then fs else logStepDefault (logStepScan input fs)

/-- LOG normalisation, value step: coerce a present value to text, else the
raw input verbatim. -/
def logStepValue (input : List Char) (fs : List (List Char × Json)) :
    List (List Char × Json) :=
  match getKey fs kValue with
  | some v => setKey fs kValue (.str (pyStr v))
  | none => setKey fs kValue (.str input)

/-- LOG normalisation, notes step: coerce to text when present and not null. -/
def logStepNotes (fs : List (List Char × Json)) : List (List Char × Json) :=
  match getKey fs kNotes with
  | some .null => fs
  | some v => setKey fs kNotes (.str (pyStr v))
  | none => fs

/-- The LOG branch of `parse` applied to `raw.get('logDetails') or {}`; a
truthy non-dict value raises `AttributeError` at `details.get`. -/
def normalizeLog (input : List Char) (d : Json) : Except PyErr Json :=
  match d with
  | .obj fs => .ok (.obj (logStepNotes (logStepValue input (logStepType input fs))))
  | _ => .error .attributeError

/-- EXPENSE normalisation, amount step: coerce a present non-null amount with
`float(...)`, catching coercion failure as `0.0`. -/
def expStepAmount (fs : List (List Char × Json)) : List (List Char × Json) :=
  match getKey fs kAmount with
  | some Json.null => fs
  | some v => setKey fs kAmount (.num ((pyFloat v).getD 0))
  | none => fs

/-- EXPENSE normalisation, category step: `setdefault('category', 'Other')`. -/
def expStepCategory (fs : List (List Char × Json)) : List (List Char × Json) :=
  match getKey fs kCategory with
  | some _ => fs
  | none => setKey fs kCategory (.str (chars "Other"))

/-- The EXPENSE branch of `parse` applied to `raw.get('expenseDetails') or {}`;
a truthy non-dict raises (`TypeError`/`AttributeError` depending on the type,
collapsed here). -/
def normalizeExpense (d : Json) : Except PyErr Json :=
  match d with
  | .obj fs => .ok (.obj (expStepCategory (expStepAmount fs)))
  | _ => .error .typeError

/-- `str(memo.get('title') or payload.input).strip()`. -/
def memoTitle (input : List Char) (fs : List (List Char × Json)) : List Char :=
  strip (pyStr (pyOr (getKey fs kTitle) (.str input)))

/-- `str(memo.get('notes') or memo.get('description') or '').strip() or
payload.input.strip()`. -/
def memoNotes (input : List Char) (fs : List (List Char × Json)) : List Char :=
  if (strip (pyStr (pyOr (getKey fs kNotes)
      (pyOr (getKey fs kDescription) (.str []))))).isEmpty then
    strip input
  else
    strip (pyStr (pyOr (getKey fs kNotes) (pyOr (getKey fs kDescription) (.str []))))

/-- The fresh `memo_details` dict, in the source's literal key order. -/
def memoFields (input : List Char) (fs : List (List Char × Json))
    (parsedDue : Option PyDateTime) : List (List Char × Json) :=
  [(kTitle, .str (memoTitle input fs)),
   (kNotes, .str (memoNotes input fs)),
   (kDueDate, parsedDue.elim Json.null (fun dt => .str (isoformat dt))),
   (kSource, .str (chars "ai"))]

/-- The due-date resolution of the MEMO branch: the explicit `dueDate` string
when it parses, else implicit inference from the raw input (which can raise
`OverflowError`). -/
def memoDueE (today : PyDateTime) (input : List Char) (m : Json) :
    Except PyErr (Option PyDateTime) :=
  match (match m with
         | Json.obj fs => getKey fs kDueDate
         | _ => none) with
  | some (Json.str s) =>
    match parseIsoDateStr s with
    | some dt => Except.ok (some dt)
    | none => inferDueDate today input
  | _ => inferDueDate today input

/-- The MEMO branch of `parse` applied to `raw.get('memoDetails') or {}`.
The due date is resolved first (explicit `dueDate` when it parses, otherwise
implicit inference, which may overflow), matching the source's statement
order; then the fresh details dict is built.  A truthy non-dict value raises
`AttributeError` at `memo.get('title')`. -/
def normalizeMemo (today : PyDateTime) (input : List Char) (m : Json) :
    Except PyErr Json :=
  match memoDueE today input m with
  | .error e => .error e
  | .ok parsedDue =>
    match m with
    | .obj fs => .ok (.obj (memoFields input fs parsedDue))
    | _ => .error .attributeError

/-- The body of `parse` after `json.loads` succeeded on the model reply:
intent normalisation and the per-intent branches.  `today` is the current
local day at midnight used by `_infer_due_date`. -/
def parseCore (today : PyDateTime) (input : List Char) (raw : Json) :
    Except PyErr Json := do
  let fs ←
    match raw with
    | Json.obj fs => Except.ok fs
    | _ => Except.error PyErr.attributeError
  let intentJ := pyOr (getKey fs kIntent) (.str (chars "UNKNOWN"))
  let intent ←
    match intentJ with
    | Json.str s => Except.ok (upper s)
    | _ => Except.error PyErr.attributeError
  let fs1 := setKey fs kIntent (.str intent)
  if intent = chars "LOG" then do
    let d ← normalizeLog input (pyOr (getKey fs1 kLogDetails) (.obj []))
    Except.ok (.obj (setKey fs1 kLogDetails d))
  else if intent = chars "EXPENSE" then do
    let d ← normalizeExpense (pyOr (getKey fs1 kExpenseDetails) (.obj []))
    Except.ok (.obj (setKey fs1 kExpenseDetails d))
  else do
    let isMemo ←
      if intent = chars "MEMO" then Except.ok true
      else if intent = chars "UNKNOWN" then do
        let inferred ← inferDueDate today input
        Except.ok inferred.isSome
      else Except.ok false
    if isMemo then do
      let m ← normalizeMemo today input (pyOr (getKey fs1 kMemoDetails) (.obj []))
      Except.ok (.obj (setKey (setKey fs1 kIntent (.str (chars "MEMO"))) kMemoDetails m))
    else Except.ok (.obj fs1)

/-- The `{'intent': 'UNKNOWN'}` early result of `parse`. -/
def unknownResult : Json := .obj [(kIntent, .str (chars "UNKNOWN"))]

/-- The `/parse` route from the model's reply text on: an empty reply and an
undecodable reply both short-circuit to `{'intent': 'UNKNOWN'}`.  `loads`
stands for `json.loads`, returning `none` on `JSONDecodeError`. -/
def parseRoute (loads : List Char → Option Json) (today : PyDateTime)
    (input respText : List Char) : Except PyErr Json :=
  if respText.isEmpty then .ok unknownResult
  else
    match loads (cleanJsonString respText) with
    | none => .ok unknownResult
    | some raw => parseCore today input raw

/-- `data.get('summary') if isinstance(data, dict) else ''` (a missing key is
`None`). -/
def analyzeSummaryRaw (data : Json) : Json :=
  match data with
  | .obj fs => (getKey fs kSummary).getD .null
  | _ => .str []

/-- `data.get(k, [])` guarded by the dict check. -/
def analyzeListRaw (data : Json) (k : List Char) : Json :=
  match data with
  | .obj fs => (getKey fs k).getD (.arr [])
  | _ => .arr []

/-- `if isinstance(x, str): x = [x]`. -/
def wrapStr (v : Json) : Json :=
  match v with
  | .str s => .arr [.str s]
  | v => v

/-- `x if isinstance(x, list) else []`. -/
def listOr (v : Json) : Json :=
  match v with
  | .arr xs => .arr xs
  | _ => .arr []

/-- `summary or 'No summary available.'`. -/
def summaryOr (v : Json) : Json :=
  if v.truthy then v else .str (chars "No summary available.")

/-- The defensive read of the model's analysis reply: summary defaulting,
bare-string wrapping and non-list collapsing for risks and suggestions.
`nowIso` stands for `datetime.utcnow().isoformat()`. -/
def analyzeNormalize (data : Json) (nowIso : List Char) : Json :=
  .obj [(kSummary, summaryOr (analyzeSummaryRaw data)),
    (kRisks, listOr (wrapStr (analyzeListRaw data kRisks))),
    (kSuggestions, listOr (wrapStr (analyzeListRaw data kSuggestions))),
    (kLastUpdated, .str nowIso)]

/-- The `/analyze` route from the model's reply text on: an empty reply and an
undecodable reply both raise `HTTPException(500)`. -/
def analyzeRoute (loads : List Char → Option Json) (respText nowIso : List Char) :
    Except PyErr Json :=
  if respText.isEmpty then .error .httpError500
  else
    match loads (cleanJsonString respText) with
    | none => .error .httpError500
    | some data => .ok (analyzeNormalize data nowIso)

/-- A fixed concrete "today" (local midnight) used by the concrete theorems. -/
def today0 : PyDateTime := ⟨2026, 10, 12, 0, 0, 0, 0, none⟩

/-- Component-wise reduction of a datetime to the widths its rendered digits
can carry; the identity on every value a real Python `datetime` can hold. -/
def truncDt (dt : PyDateTime) : PyDateTime :=
  ⟨dt.year % 10 ^ 4, dt.month % 10 ^ 2, dt.day % 10 ^ 2, dt.hour % 10 ^ 2,
    dt.minute % 10 ^ 2, dt.second % 10 ^ 2, dt.microsecond, dt.tzMinutes⟩

/-- The date portion of `isoformat` (everything before the `'T'`). -/
def isoDatePart (dt : PyDateTime) : List Char :=
  renderPad 4 dt.year ++ '-' :: (renderPad 2 dt.month ++ '-' :: renderPad 2 dt.day)

/-- The details key rewritten for a given final intent, if any. -/
def detailKeyOf (i : List Char) : Option (List Char) :=
  if i = chars "LOG" then some kLogDetails
  else if i = chars "EXPENSE" then some kExpenseDetails
  else if i = chars "MEMO" then some kMemoDetails
  else none

/-! ### Dictionary update lemmas -/

theorem getKey_setKey_self (fs : List (List Char × Json)) (k : List Char) (v : Json) :
    getKey (setKey fs k v) k = some v := by
  induction fs with
  | nil => simp [setKey, getKey]
  | cons kv rest ih =>
    obtain ⟨a, b⟩ := kv
    by_cases h : a = k
    · simp [setKey, h, getKey]
    · simp [setKey, h, getKey, ih]

theorem getKey_setKey_ne (fs : List (List Char × Json)) (k k' : List Char) (v : Json)
    (h : k' ≠ k) : getKey (setKey fs k v) k' = getKey fs k' := by
  induction fs with
  | nil =>
    simp only [setKey, getKey]
    rw [if_neg (fun hk => h hk.symm)]
  | cons kv rest ih =>
    obtain ⟨a, b⟩ := kv
    by_cases ha : a = k
    · subst ha
      simp only [setKey, if_pos rfl, getKey]
      rw [if_neg (fun hk => h hk.symm), if_neg (fun hk => h hk.symm)]
    · simp only [setKey, if_neg ha, getKey]
      by_cases ha' : a = k'
      · simp [ha']
      · simp [ha', ih]

theorem setKey_getKey_eq (fs : List (List Char × Json)) (k : List Char) (v : Json)
    (h : getKey fs k = some v) : setKey fs k v = fs := by
  induction fs with
  | nil => simp [getKey] at h
  | cons kv rest ih =>
    obtain ⟨a, b⟩ := kv
    by_cases ha : a = k
    · subst ha
      rw [getKey, if_pos rfl] at h
      have hb : b = v := by injection h
      simp [setKey, hb]
    · rw [getKey, if_neg ha] at h
      simp [setKey, ha, ih h]

/-! ### `strip` lemmas -/

theorem dropWhile_eq_cons_not (p : Char → Bool) (l : List Char) (c : Char) (t : List Char)
    (h : l.dropWhile p = c :: t) : p c = false := by
  induction l with
  | nil => simp [List.dropWhile] at h
  | cons a l ih =>
    rw [List.dropWhile_cons] at h
    by_cases hp : p a = true
    · rw [if_pos hp] at h
      exact ih h
    · rw [if_neg hp] at h
      cases h
      exact Bool.eq_false_iff.mpr hp

theorem strip_head_nospace (w : List Char) (c : Char) (t : List Char)
    (h : strip w = c :: t) : pyIsSpace c = false := by
  have hsplit := List.takeWhile_append_dropWhile pyIsSpace (w.dropWhile pyIsSpace).reverse
  have hu := congrArg List.reverse hsplit
  rw [List.reverse_reverse, List.reverse_append] at hu
  unfold strip at h
  rw [h] at hu
  simp only [List.cons_append] at hu
  exact dropWhile_eq_cons_not pyIsSpace w c _ hu.symm

theorem strip_idem (s : List Char) : strip (strip s) = strip s := by
  have h1 : (strip s).dropWhile pyIsSpace = strip s := by
    cases hvr : strip s with
    | nil => simp
    | cons c t => simp [List.dropWhile_cons, strip_head_nospace s c t hvr]
  show ((((strip s).dropWhile pyIsSpace).reverse).dropWhile pyIsSpace).reverse = strip s
  rw [h1]
  unfold strip
  rw [List.reverse_reverse, List.dropWhile_idempotent]

/-- The image of `strip` is fixed by `strip`. -/
theorem strip_of_strip_image (s t : List Char) (h : t = strip s) : strip t = t := by
  rw [h, strip_idem]

/-! ### Decimal rendering and reading lemmas -/

theorem digit_fin_facts : ∀ m : Fin 10,
    (Char.ofNat (48 + (m : ℕ))).isDigit = true ∧
    (Char.ofNat (48 + (m : ℕ))).toNat - 48 = (m : ℕ) ∧
    Char.ofNat (48 + (m : ℕ)) ≠ 'Z' ∧ Char.ofNat (48 + (m : ℕ)) ≠ 'T' ∧
    Char.ofNat (48 + (m : ℕ)) ≠ '.' ∧ Char.ofNat (48 + (m : ℕ)) ≠ ':' := by decide

theorem digitChar_isDigit (n : ℕ) : (digitChar n).isDigit = true := by
  have h := digit_fin_facts ⟨n % 10, Nat.mod_lt n (by norm_num)⟩
  simpa [digitChar] using h.1

theorem digitChar_val (n : ℕ) : (digitChar n).toNat - 48 = n % 10 := by
  have h := digit_fin_facts ⟨n % 10, Nat.mod_lt n (by norm_num)⟩
  simpa [digitChar] using h.2.1

theorem digitChar_ne_Z (n : ℕ) : digitChar n ≠ 'Z' := by
  have h := digit_fin_facts ⟨n % 10, Nat.mod_lt n (by norm_num)⟩
  simpa [digitChar] using h.2.2.1

theorem digitChar_ne_T (n : ℕ) : digitChar n ≠ 'T' := by
  have h := digit_fin_facts ⟨n % 10, Nat.mod_lt n (by norm_num)⟩
  simpa [digitChar] using h.2.2.2.1

theorem digitChar_mod (n : ℕ) : digitChar (n % 10) = digitChar n := by
  have : n % 10 % 10 = n % 10 := by omega
  simp [digitChar, this]

theorem renderPad_length (k n : ℕ) : (renderPad k n).length = k := by
  induction k generalizing n with
  | zero => simp [renderPad]
  | succ k ih => simp [renderPad, ih]

theorem mem_renderPad_isDigit (k : ℕ) : ∀ (n : ℕ) (c : Char), c ∈ renderPad k n →
    c.isDigit = true := by
  induction k with
  | zero => simp [renderPad]
  | succ k ih =>
    intro n c hc
    rcases List.mem_cons.mp hc with h | h
    · rw [h]; exact digitChar_isDigit _
    · exact ih n c h

theorem mod_pow_succ_eq (k n : ℕ) :
    n % 10 ^ (k + 1) = n % 10 ^ k + 10 ^ k * (n / 10 ^ k % 10) := by
  rw [pow_succ, Nat.mod_mul]

theorem renderPad_mod (k : ℕ) : ∀ n : ℕ, renderPad k (n % 10 ^ k) = renderPad k n := by
  induction k with
  | zero => intro n; simp [renderPad]
  | succ k ih =>
    intro n
    show digitChar (n % 10 ^ (k + 1) / 10 ^ k) :: renderPad k (n % 10 ^ (k + 1)) =
      digitChar (n / 10 ^ k) :: renderPad k n
    have hdig : n % 10 ^ (k + 1) / 10 ^ k = n / 10 ^ k % 10 := by
      rw [mod_pow_succ_eq]
      have hlt : n % 10 ^ k < 10 ^ k := Nat.mod_lt n (Nat.pos_pow_of_pos k (by norm_num))
      rw [Nat.mul_comm (10 ^ k) (n / 10 ^ k % 10), Nat.add_mul_div_right _ _
        (Nat.pos_pow_of_pos k (by norm_num)), Nat.div_eq_of_lt hlt, Nat.zero_add]
    have htail : renderPad k (n % 10 ^ (k + 1)) = renderPad k n := by
      calc renderPad k (n % 10 ^ (k + 1))
          = renderPad k (n % 10 ^ (k + 1) % 10 ^ k) := (ih _).symm
        _ = renderPad k (n % 10 ^ k) := by
            rw [Nat.mod_mod_of_dvd _ (pow_dvd_pow 10 (Nat.le_succ k))]
        _ = renderPad k n := ih n
    rw [hdig, htail, digitChar_mod]

theorem readDigitsAux_render (k : ℕ) : ∀ (acc n : ℕ) (rest : List Char),
    readDigitsAux acc k (renderPad k n ++ rest) = some (acc * 10 ^ k + n % 10 ^ k, rest) := by
  induction k with
  | zero => intro acc n rest; simp [renderPad, readDigitsAux, Nat.mod_one]
  | succ k ih =>
    intro acc n rest
    show readDigitsAux acc (k + 1) (digitChar (n / 10 ^ k) :: (renderPad k n ++ rest)) = _
    rw [readDigitsAux, if_pos (digitChar_isDigit _), digitChar_val, ih]
    have hm := mod_pow_succ_eq k n
    have hp : (10 : ℕ) ^ (k + 1) = 10 ^ k * 10 := pow_succ 10 k
    rw [hm, hp]
    congr 1
    ring_nf

theorem readDigits_render_mod (k n : ℕ) (rest : List Char) :
    readDigits k (renderPad k n ++ rest) = some (n % 10 ^ k, rest) := by
  have h := readDigitsAux_render k 0 n rest
  simpa [readDigits] using h

theorem readDigits_render (k n : ℕ) (rest : List Char) (h : n < 10 ^ k) :
    readDigits k (renderPad k n ++ rest) = some (n, rest) := by
  rw [readDigits_render_mod, Nat.mod_eq_of_lt h]

theorem digitsToNat_render_aux (k : ℕ) : ∀ (acc n : ℕ),
    (renderPad k n).foldl (fun acc c => acc * 10 + (c.toNat - 48)) acc =
      acc * 10 ^ k + n % 10 ^ k := by
  induction k with
  | zero => intro acc n; simp [renderPad, Nat.mod_one]
  | succ k ih =>
    intro acc n
    show ((digitChar (n / 10 ^ k) :: renderPad k n).foldl
      (fun acc c => acc * 10 + (c.toNat - 48)) acc) = _
    rw [List.foldl_cons, digitChar_val, ih]
    have hm := mod_pow_succ_eq k n
    have hp : (10 : ℕ) ^ (k + 1) = 10 ^ k * 10 := pow_succ 10 k
    rw [hm, hp]
    ring_nf

theorem digitsToNat_render (k n : ℕ) : digitsToNat (renderPad k n) = n % 10 ^ k := by
  have h := digitsToNat_render_aux k 0 n
  simpa [digitsToNat] using h

theorem expectChar_cons (c : Char) (s : List Char) : expectChar c (c :: s) = some s := by
  simp [expectChar]

theorem takeWhile_digits_append (ds rest : List Char)
    (hds : ∀ c ∈ ds, c.isDigit = true)
    (hrest : rest = [] ∨ ∃ c t, rest = c :: t ∧ c.isDigit = false) :
    (ds ++ rest).takeWhile Char.isDigit = ds ∧
    (ds ++ rest).dropWhile Char.isDigit = rest := by
  induction ds with
  | nil =>
    rcases hrest with h | ⟨c, t, hct, hc⟩
    · simp [h]
    · subst hct
      constructor
      · rw [List.nil_append, List.takeWhile_cons, if_neg (by simp [hc])]
      · rw [List.nil_append, List.dropWhile_cons, if_neg (by simp [hc])]
  | cons d ds ih =>
    have hd : d.isDigit = true := hds d (by simp)
    have hds' : ∀ c ∈ ds, c.isDigit = true := fun c hc => hds c (by simp [hc])
    obtain ⟨ht, hd'⟩ := ih hds'
    constructor
    · rw [List.cons_append, List.takeWhile_cons, if_pos hd, ht]
    · rw [List.cons_append, List.dropWhile_cons, if_pos hd, hd']

/-! ### ISO round-trip lemmas -/

theorem takeWhile_append_stop (p : Char → Bool) (xs : List Char) (c : Char) (rest : List Char)
    (hxs : ∀ x ∈ xs, p x = true) (hc : p c = false) :
    (xs ++ c :: rest).takeWhile p = xs ∧ (xs ++ c :: rest).dropWhile p = c :: rest := by
  induction xs with
  | nil =>
    constructor
    · rw [List.nil_append, List.takeWhile_cons, if_neg (by simp [hc])]
    · rw [List.nil_append, List.dropWhile_cons, if_neg (by simp [hc])]
  | cons d ds ih =>
    have hd := hxs d (by simp)
    obtain ⟨h1, h2⟩ := ih (fun x hx => hxs x (by simp [hx]))
    constructor
    · rw [List.cons_append, List.takeWhile_cons, if_pos hd, h1]
    · rw [List.cons_append, List.dropWhile_cons, if_pos hd, h2]

theorem readTzPart_render (o : ℤ) (h : o.natAbs ≤ 1439) :
    readTzPart (renderOffset (some o)) = some (some o) := by
  have hoh : o.natAbs / 60 < 100 := by omega
  have hom : o.natAbs % 60 < 100 := by omega
  have h2 : readDigits 2 (renderPad 2 (o.natAbs % 60)) = some (o.natAbs % 60, []) := by
    rw [← List.append_nil (renderPad 2 (o.natAbs % 60))]
    exact readDigits_render 2 _ [] hom
  have hsum : ((o.natAbs / 60 : ℕ) : ℤ) * 60 + ((o.natAbs % 60 : ℕ) : ℤ) = (o.natAbs : ℤ) := by
    exact_mod_cast (by omega : o.natAbs / 60 * 60 + o.natAbs % 60 = o.natAbs)
  simp only [renderOffset]
  by_cases h0 : 0 ≤ o
  · rw [if_pos h0, readTzPart, if_pos (Or.inl rfl), readDigits_render 2 _ _ hoh]
    simp only [Bind.bind, Option.bind]
    rw [expectChar_cons]
    simp only [Option.bind]
    rw [h2]
    simp only [if_pos rfl, if_true]
    have hval : (1 : ℤ) * (((o.natAbs / 60 : ℕ) : ℤ) * 60 + ((o.natAbs % 60 : ℕ) : ℤ)) = o := by
      rw [one_mul, hsum]; omega
    simp only [reduceIte, hval]
  · rw [if_neg h0, readTzPart, if_pos (Or.inr rfl), readDigits_render 2 _ _ hoh]
    simp only [Bind.bind, Option.bind]
    rw [expectChar_cons]
    simp only [Option.bind]
    rw [h2]
    simp only [if_pos rfl, if_true]
    have hne : ('-' : Char) = '+' ↔ False := by simp
    have hval : (-1 : ℤ) * (((o.natAbs / 60 : ℕ) : ℤ) * 60 + ((o.natAbs % 60 : ℕ) : ℤ)) = o := by
      rw [neg_one_mul, hsum]; omega
    simp only [hne, if_false, hval, reduceIte]

theorem readTzPart_renderOffset (tz : Option ℤ) (htz : tzOk tz = true) :
    readTzPart (renderOffset tz) = some tz := by
  cases tz with
  | none => rfl
  | some o => exact readTzPart_render o (by simpa [tzOk] using htz)

theorem renderOffset_shape (tz : Option ℤ) :
    renderOffset tz = [] ∨ ∃ c t, renderOffset tz = c :: t ∧ (c = '+' ∨ c = '-') := by
  cases tz with
  | none => exact Or.inl rfl
  | some o =>
    right
    by_cases h0 : 0 ≤ o
    · exact ⟨'+', renderPad 2 (o.natAbs / 60) ++ ':' :: renderPad 2 (o.natAbs % 60),
        by simp [renderOffset, h0], Or.inl rfl⟩
    · exact ⟨'-', renderPad 2 (o.natAbs / 60) ++ ':' :: renderPad 2 (o.natAbs % 60),
        by simp [renderOffset, h0], Or.inr rfl⟩

theorem readFracPart_nodot (c : Char) (t : List Char) (hc : (c = '.') = False) :
    readFracPart (c :: t) = some (0, c :: t) := by
  rw [readFracPart, if_neg (by simp [hc])]

theorem readFracPart_render (micro : ℕ) (hm : micro < 1000000) (rest : List Char)
    (hrest : rest = [] ∨ ∃ c t, rest = c :: t ∧ c.isDigit = false) :
    readFracPart ('.' :: (renderPad 6 micro ++ rest)) = some (micro, rest) := by
  obtain ⟨ht, hd⟩ := takeWhile_digits_append (renderPad 6 micro) rest
    (mem_renderPad_isDigit 6 micro) hrest
  rw [readFracPart, if_pos rfl]
  simp only [ht, hd, renderPad_length]
  rw [digitsToNat_render, Nat.mod_eq_of_lt (by omega : micro < 10 ^ 6)]
  simp

theorem readFracPart_offset (tz : Option ℤ) :
    readFracPart (renderOffset tz) = some (0, renderOffset tz) := by
  rcases renderOffset_shape tz with h | ⟨c, t, hct, hc⟩
  · rw [h]; rfl
  · rw [hct]
    apply readFracPart_nodot
    rcases hc with h | h <;> subst h <;> simp

theorem readTime_render_mod (h mi se micro : ℕ) (tz : Option ℤ)
    (hmic : micro < 1000000) (htz : tzOk tz = true) :
    readTime (renderPad 2 h ++ ':' :: (renderPad 2 mi ++ ':' :: (renderPad 2 se ++
      ((if micro = 0 then [] else '.' :: renderPad 6 micro) ++ renderOffset tz)))) =
      some (h % 10 ^ 2, mi % 10 ^ 2, se % 10 ^ 2, micro, tz) := by
  have hfrac : readFracPart ((if micro = 0 then [] else '.' :: renderPad 6 micro) ++
      renderOffset tz) = some (micro, renderOffset tz) := by
    by_cases hm0 : micro = 0
    · subst hm0
      rw [if_pos rfl, List.nil_append, readFracPart_offset]
    · rw [if_neg hm0, List.cons_append]
      apply readFracPart_render micro hmic
      rcases renderOffset_shape tz with hsh | ⟨c, t, hct, hc⟩
      · exact Or.inl hsh
      · refine Or.inr ⟨c, t, hct, ?_⟩
        rcases hc with h' | h' <;> subst h' <;> rfl
  simp only [readTime, readDigits_render_mod, Option.bind, Bind.bind, reduceIte,
    hfrac, readTzPart_renderOffset tz htz]

theorem fromIsoRaw_isoformat (dt : PyDateTime) (hmic : dt.microsecond < 1000000)
    (htz : tzOk dt.tzMinutes = true) :
    fromIsoRaw (isoformat dt) = some (truncDt dt) := by
  simp only [fromIsoRaw, isoformat, readDigits_render_mod, Option.bind, Bind.bind,
    expectChar_cons,
    readTime_render_mod dt.hour dt.minute dt.second dt.microsecond dt.tzMinutes hmic htz]
  rfl

theorem isoformat_trunc (dt : PyDateTime) : isoformat (truncDt dt) = isoformat dt := by
  simp only [isoformat, truncDt, renderPad_mod]

theorem validDtB_iff (dt : PyDateTime) : validDtB dt = true ↔
    (1 ≤ dt.year ∧ dt.year ≤ 9999 ∧ 1 ≤ dt.month ∧ dt.month ≤ 12 ∧ 1 ≤ dt.day ∧
     dt.day ≤ daysInMonth dt.year dt.month ∧ dt.hour ≤ 23 ∧ dt.minute ≤ 59 ∧
     dt.second ≤ 59 ∧ dt.microsecond ≤ 999999 ∧ tzOk dt.tzMinutes = true) := by
  simp [validDtB, dateOkB, timeOkB, Bool.and_eq_true, and_assoc]

theorem truncDt_eq_self (dt : PyDateTime) (hy : dt.year < 10 ^ 4) (hmo : dt.month < 10 ^ 2)
    (hd : dt.day < 10 ^ 2) (hh : dt.hour < 10 ^ 2) (hmi : dt.minute < 10 ^ 2)
    (hse : dt.second < 10 ^ 2) : truncDt dt = dt := by
  have h1 : dt.year % 10000 = dt.year := Nat.mod_eq_of_lt (by omega)
  have h2 : dt.month % 100 = dt.month := Nat.mod_eq_of_lt (by omega)
  have h3 : dt.day % 100 = dt.day := Nat.mod_eq_of_lt (by omega)
  have h4 : dt.hour % 100 = dt.hour := Nat.mod_eq_of_lt (by omega)
  have h5 : dt.minute % 100 = dt.minute := Nat.mod_eq_of_lt (by omega)
  have h6 : dt.second % 100 = dt.second := Nat.mod_eq_of_lt (by omega)
  simp [truncDt, h1, h2, h3, h4, h5, h6]

theorem fromIso_some_valid (s : List Char) (dt : PyDateTime) (h : fromIso s = some dt) :
    validDtB dt = true := by
  unfold fromIso at h
  cases hraw : fromIsoRaw s with
  | none => rw [hraw] at h; simp [Bind.bind, Option.bind] at h
  | some d =>
    rw [hraw] at h
    simp only [Bind.bind, Option.bind] at h
    by_cases hv : validDtB d = true
    · rw [if_pos hv] at h
      cases h
      exact hv
    · rw [if_neg hv] at h
      cases h

theorem fromIso_isoformat_of_valid (dt : PyDateTime) (hv : validDtB dt = true) :
    fromIso (isoformat dt) = some dt := by
  obtain ⟨hy1, hy2, hm1, hm2, hd1, hd2, hh, hmi, hse, hmic, htz⟩ := (validDtB_iff dt).mp hv
  have hdm : daysInMonth dt.year dt.month ≤ 31 := by
    unfold daysInMonth
    split
    · split <;> omega
    · split <;> omega
  have hraw := fromIsoRaw_isoformat dt (by omega) htz
  have htr : truncDt dt = dt := truncDt_eq_self dt (by omega) (by omega) (by omega)
    (by omega) (by omega) (by omega)
  unfold fromIso
  rw [hraw, htr]
  simp [Bind.bind, Option.bind, hv]

theorem fromIso_isoformat_stable (dt dt' : PyDateTime) (hmic : dt.microsecond < 1000000)
    (htz : tzOk dt.tzMinutes = true) (h : fromIso (isoformat dt) = some dt') :
    isoformat dt' = isoformat dt := by
  unfold fromIso at h
  rw [fromIsoRaw_isoformat dt hmic htz] at h
  simp only [Bind.bind, Option.bind] at h
  by_cases hv : validDtB (truncDt dt) = true
  · rw [if_pos hv] at h
    cases h
    exact isoformat_trunc dt
  · rw [if_neg hv] at h
    cases h

theorem isDigit_ne_of (c d : Char) (hd : d.isDigit = false) (h : c.isDigit = true) :
    c ≠ d := by
  intro he
  subst he
  rw [h] at hd
  cases hd

theorem replaceZ_no_Z (s : List Char) (h : ∀ c ∈ s, c ≠ 'Z') : replaceZ s = s := by
  induction s with
  | nil => rfl
  | cons c t ih =>
    rw [replaceZ, if_neg (h c (by simp)), ih (fun x hx => h x (by simp [hx]))]

theorem mem_isoformat_chars (dt : PyDateTime) (c : Char) (h : c ∈ isoformat dt) :
    c.isDigit = true ∨ c = '-' ∨ c = 'T' ∨ c = ':' ∨ c = '.' ∨ c = '+' := by
  simp only [isoformat, List.mem_append, List.mem_cons] at h
  rcases h with h | h | h | h | h | h | h | h | h | h | h
  · exact Or.inl (mem_renderPad_isDigit 4 dt.year c h)
  · exact Or.inr (Or.inl h)
  · exact Or.inl (mem_renderPad_isDigit 2 dt.month c h)
  · exact Or.inr (Or.inl h)
  · exact Or.inl (mem_renderPad_isDigit 2 dt.day c h)
  · exact Or.inr (Or.inr (Or.inl h))
  · exact Or.inl (mem_renderPad_isDigit 2 dt.hour c h)
  · exact Or.inr (Or.inr (Or.inr (Or.inl h)))
  · exact Or.inl (mem_renderPad_isDigit 2 dt.minute c h)
  · exact Or.inr (Or.inr (Or.inr (Or.inl h)))
  · rcases h with h2 | h3 | h3
    · exact Or.inl (mem_renderPad_isDigit 2 dt.second c h2)
    · by_cases hm : dt.microsecond = 0
      · rw [if_pos hm] at h3
        simp at h3
      · rw [if_neg hm] at h3
        rcases List.mem_cons.mp h3 with h4 | h4
        · exact Or.inr (Or.inr (Or.inr (Or.inr (Or.inl h4))))
        · exact Or.inl (mem_renderPad_isDigit 6 dt.microsecond c h4)
    · cases htz : dt.tzMinutes with
      | none => rw [htz] at h3; simp [renderOffset] at h3
      | some o =>
        rw [htz] at h3
        simp only [renderOffset, List.mem_cons, List.mem_append] at h3
        rcases h3 with h4 | h4 | h4 | h4
        · by_cases h0 : (0 : ℤ) ≤ o
          · rw [if_pos h0] at h4
            exact Or.inr (Or.inr (Or.inr (Or.inr (Or.inr h4))))
          · rw [if_neg h0] at h4
            exact Or.inr (Or.inl h4)
        · exact Or.inl (mem_renderPad_isDigit 2 _ c h4)
        · exact Or.inr (Or.inr (Or.inr (Or.inl h4)))
        · exact Or.inl (mem_renderPad_isDigit 2 _ c h4)

theorem isoformat_no_Z (dt : PyDateTime) : ∀ c ∈ isoformat dt, c ≠ 'Z' := by
  intro c hc
  rcases mem_isoformat_chars dt c hc with h | h | h | h | h | h
  · exact isDigit_ne_of c 'Z' (by decide) h
  all_goals (subst h; decide)

theorem isoformat_not_empty (dt : PyDateTime) : (isoformat dt).isEmpty = false := by
  simp [isoformat, renderPad]

theorem mem_isoDatePart_chars (dt : PyDateTime) (c : Char) (h : c ∈ isoDatePart dt) :
    c.isDigit = true ∨ c = '-' := by
  simp only [isoDatePart, List.mem_append, List.mem_cons] at h
  rcases h with h | h | h | h | h
  · exact Or.inl (mem_renderPad_isDigit 4 dt.year c h)
  · exact Or.inr h
  · exact Or.inl (mem_renderPad_isDigit 2 dt.month c h)
  · exact Or.inr h
  · exact Or.inl (mem_renderPad_isDigit 2 dt.day c h)

theorem isoformat_split_T (dt : PyDateTime) :
    isoformat dt = isoDatePart dt ++ 'T' ::
      (renderPad 2 dt.hour ++ ':' :: (renderPad 2 dt.minute ++ ':' :: (renderPad 2 dt.second ++
        ((if dt.microsecond = 0 then [] else '.' :: renderPad 6 dt.microsecond) ++
          renderOffset dt.tzMinutes)))) := by
  simp [isoformat, isoDatePart, List.append_assoc]

theorem takeT_isoformat (dt : PyDateTime) :
    (isoformat dt).takeWhile (fun c => c ≠ 'T') = isoDatePart dt := by
  rw [isoformat_split_T]
  refine (takeWhile_append_stop _ _ _ _ ?_ (by simp)).1
  intro x hx
  rcases mem_isoDatePart_chars dt x hx with h | h
  · simp [isDigit_ne_of x 'T' (by decide) h]
  · subst h; decide

theorem readDigits_render_mod_nil (k n : ℕ) :
    readDigits k (renderPad k n) = some (n % 10 ^ k, []) := by
  rw [← List.append_nil (renderPad k n)]
  exact readDigits_render_mod k n []

theorem fromIsoRaw_isoDatePart (dt : PyDateTime) :
    fromIsoRaw (isoDatePart dt) =
      some ⟨dt.year % 10 ^ 4, dt.month % 10 ^ 2, dt.day % 10 ^ 2, 0, 0, 0, 0, none⟩ := by
  simp only [fromIsoRaw, isoDatePart, readDigits_render_mod, readDigits_render_mod_nil,
    Option.bind, Bind.bind, expectChar_cons]

theorem timeOkB_iff (dt : PyDateTime) : timeOkB dt = true ↔
    (dt.hour ≤ 23 ∧ dt.minute ≤ 59 ∧ dt.second ≤ 59 ∧ dt.microsecond ≤ 999999 ∧
      tzOk dt.tzMinutes = true) := by
  simp [timeOkB, Bool.and_eq_true, and_assoc]

theorem timeOkB_truncDt (dt : PyDateTime) (ht : timeOkB dt = true) :
    timeOkB (truncDt dt) = true := by
  obtain ⟨hh, hmi, hse, hmic, htz⟩ := (timeOkB_iff dt).mp ht
  refine (timeOkB_iff (truncDt dt)).mpr ?_
  simp only [truncDt]
  refine ⟨by omega, by omega, by omega, by omega, htz⟩

theorem fromIso_datePart_of_full_none (dt : PyDateTime) (ht : timeOkB dt = true)
    (hfull : fromIso (isoformat dt) = none) : fromIso (isoDatePart dt) = none := by
  obtain ⟨hh, hmi, hse, hmic, htz⟩ := (timeOkB_iff dt).mp ht
  unfold fromIso at hfull
  rw [fromIsoRaw_isoformat dt (by omega) htz] at hfull
  simp only [Bind.bind, Option.bind] at hfull
  by_cases hv : validDtB (truncDt dt) = true
  · rw [if_pos hv] at hfull; cases hfull
  · have hdate : dateOkB (dt.year % 10 ^ 4) (dt.month % 10 ^ 2) (dt.day % 10 ^ 2) = false := by
      by_cases hdo : dateOkB (dt.year % 10 ^ 4) (dt.month % 10 ^ 2) (dt.day % 10 ^ 2) = true
      · exfalso
        apply hv
        unfold validDtB
        rw [timeOkB_truncDt dt ht]
        simp only [truncDt]
        rw [hdo]
        rfl
      · exact Bool.eq_false_iff.mpr hdo
    unfold fromIso
    rw [fromIsoRaw_isoDatePart]
    simp only [Bind.bind, Option.bind]
    rw [if_neg ?hgate]
    case hgate =>
      unfold validDtB
      intro hcontra
      rw [Bool.and_eq_true] at hcontra
      have := hcontra.1
      simp only at this
      rw [hdate] at this
      cases this

theorem parseIsoDateStr_some_valid (s : List Char) (dt : PyDateTime)
    (h : parseIsoDateStr s = some dt) : validDtB dt = true := by
  unfold parseIsoDateStr at h
  by_cases he : s.isEmpty
  · rw [if_pos he] at h; cases h
  · rw [if_neg he] at h
    cases hf : fromIso (replaceZ s) with
    | some d =>
      rw [hf] at h
      simp only [Option.orElse] at h
      cases h
      exact fromIso_some_valid _ _ hf
    | none =>
      rw [hf] at h
      simp only [Option.orElse] at h
      exact fromIso_some_valid _ _ h

theorem parseIsoDateStr_isoformat_of_valid (dt : PyDateTime) (hv : validDtB dt = true) :
    parseIsoDateStr (isoformat dt) = some dt := by
  unfold parseIsoDateStr
  rw [if_neg (by rw [isoformat_not_empty dt]; exact fun hc => nomatch hc),
    replaceZ_no_Z _ (isoformat_no_Z dt), fromIso_isoformat_of_valid dt hv]
  rfl

theorem parseIsoDateStr_isoformat_cases (dt : PyDateTime) (ht : timeOkB dt = true) :
    parseIsoDateStr (isoformat dt) = none ∨
    ∃ dt', parseIsoDateStr (isoformat dt) = some dt' ∧ isoformat dt' = isoformat dt := by
  obtain ⟨hh, hmi, hse, hmic, htz⟩ := (timeOkB_iff dt).mp ht
  unfold parseIsoDateStr
  rw [if_neg (by rw [isoformat_not_empty dt]; exact fun hc => nomatch hc),
    replaceZ_no_Z _ (isoformat_no_Z dt)]
  cases hf : fromIso (isoformat dt) with
  | some d =>
    right
    exact ⟨d, rfl, fromIso_isoformat_stable dt d (by omega) htz hf⟩
  | none =>
    left
    rw [takeT_isoformat, fromIso_datePart_of_full_none dt ht hf]
    rfl

/-! ### Normaliser idempotence lemmas -/

theorem expStepAmount_key_other (fs : List (List Char × Json)) (k : List Char)
    (hk : k ≠ kAmount) : getKey (expStepAmount fs) k = getKey fs k := by
  unfold expStepAmount
  cases hA : getKey fs kAmount with
  | none => rfl
  | some v =>
    cases v with
    | null => rfl
    | bool b => exact getKey_setKey_ne fs kAmount k _ hk
    | num q => exact getKey_setKey_ne fs kAmount k _ hk
    | str s => exact getKey_setKey_ne fs kAmount k _ hk
    | arr xs => exact getKey_setKey_ne fs kAmount k _ hk
    | obj ox => exact getKey_setKey_ne fs kAmount k _ hk

theorem expStepCategory_key_other (fs : List (List Char × Json)) (k : List Char)
    (hk : k ≠ kCategory) : getKey (expStepCategory fs) k = getKey fs k := by
  unfold expStepCategory
  cases hC : getKey fs kCategory with
  | none => exact getKey_setKey_ne fs kCategory k _ hk
  | some v => rfl

theorem expStepAmount_fixed (G : List (List Char × Json))
    (h : getKey G kAmount = none ∨ getKey G kAmount = some Json.null ∨
         ∃ q, getKey G kAmount = some (Json.num q)) :
    expStepAmount G = G := by
  unfold expStepAmount
  rcases h with h | h | ⟨q, h⟩
  · rw [h]
  · rw [h]
  · rw [h]
    exact setKey_getKey_eq G kAmount _ h

theorem expStepAmount_amount (fs : List (List Char × Json)) :
    getKey (expStepAmount fs) kAmount = none ∨
    getKey (expStepAmount fs) kAmount = some Json.null ∨
    ∃ q, getKey (expStepAmount fs) kAmount = some (Json.num q) := by
  unfold expStepAmount
  cases hA : getKey fs kAmount with
  | none => exact Or.inl hA
  | some v =>
    cases v with
    | null => exact Or.inr (Or.inl hA)
    | bool b => exact Or.inr (Or.inr ⟨_, getKey_setKey_self fs kAmount _⟩)
    | num q => exact Or.inr (Or.inr ⟨_, getKey_setKey_self fs kAmount _⟩)
    | str s => exact Or.inr (Or.inr ⟨_, getKey_setKey_self fs kAmount _⟩)
    | arr xs => exact Or.inr (Or.inr ⟨_, getKey_setKey_self fs kAmount _⟩)
    | obj ox => exact Or.inr (Or.inr ⟨_, getKey_setKey_self fs kAmount _⟩)

theorem expStepCategory_fixed (G : List (List Char × Json))
    (h : getKey G kCategory ≠ none) : expStepCategory G = G := by
  unfold expStepCategory
  cases hC : getKey G kCategory with
  | none => exact absurd hC h
  | some v => rfl

theorem expStepCategory_has (X : List (List Char × Json)) :
    getKey (expStepCategory X) kCategory ≠ none := by
  unfold expStepCategory
  cases hC : getKey X kCategory with
  | none => rw [getKey_setKey_self]; simp
  | some v => rw [hC]; simp

theorem normalizeExpense_obj (d o : Json) (h : normalizeExpense d = Except.ok o) :
    ∃ fs, d = Json.obj fs := by
  cases d with
  | obj fs => exact ⟨fs, rfl⟩
  | null => simp [normalizeExpense] at h
  | bool b => simp [normalizeExpense] at h
  | num q => simp [normalizeExpense] at h
  | str s => simp [normalizeExpense] at h
  | arr xs => simp [normalizeExpense] at h

theorem normalizeExpense_idem (d o : Json) (h : normalizeExpense d = Except.ok o) :
    normalizeExpense o = Except.ok o := by
  obtain ⟨fs, rfl⟩ := normalizeExpense_obj d o h
  have ho : o = Json.obj (expStepCategory (expStepAmount fs)) := by
    unfold normalizeExpense at h
    injection h with h2
    exact h2.symm
  subst ho
  have h1 : expStepAmount (expStepCategory (expStepAmount fs)) =
      expStepCategory (expStepAmount fs) := by
    apply expStepAmount_fixed
    rw [expStepCategory_key_other _ kAmount (by decide)]
    exact expStepAmount_amount fs
  show Except.ok (Json.obj (expStepCategory (expStepAmount
    (expStepCategory (expStepAmount fs))))) = _
  rw [h1, expStepCategory_fixed _ (expStepCategory_has (expStepAmount fs))]

theorem truthyGet_congr (fs gs : List (List Char × Json)) (k : List Char)
    (h : getKey fs k = getKey gs k) : truthyGet fs k = truthyGet gs k := by
  unfold truthyGet
  rw [h]

theorem scanKeyword_nonempty (t v : List Char) (h : scanKeyword t = some v) :
    v.isEmpty = false := by
  unfold scanKeyword at h
  cases hf : keywordMap.find? (fun kv => strContains t kv.1) with
  | none => rw [hf] at h; cases h
  | some kv =>
    rw [hf] at h
    injection h with h2
    have hmem : kv ∈ keywordMap := List.mem_of_find?_eq_some hf
    have hall : ∀ x ∈ keywordMap, x.2.isEmpty = false := by decide
    rw [← h2]
    exact hall kv hmem

theorem logStepScan_key_other (input : List Char) (fs : List (List Char × Json))
    (k : List Char) (hk : k ≠ kType) :
    getKey (logStepScan input fs) k = getKey fs k := by
  unfold logStepScan
  cases hscan : scanKeyword (lower input) with
  | some mapped => exact getKey_setKey_ne fs kType k _ hk
  | none => rfl

theorem logStepDefault_key_other (fs : List (List Char × Json))
    (k : List Char) (hk : k ≠ kType) :
    getKey (logStepDefault fs) k = getKey fs k := by
  unfold logStepDefault
  cases hget : getKey fs kType with
  | some v => rfl
  | none => exact getKey_setKey_ne fs kType k _ hk

theorem logStepType_key_other (input : List Char) (fs : List (List Char × Json))
    (k : List Char) (hk : k ≠ kType) :
    getKey (logStepType input fs) k = getKey fs k := by
  unfold logStepType
  by_cases ht : truthyGet fs kType
  · rw [if_pos ht]
  · rw [if_neg ht, logStepDefault_key_other _ k hk, logStepScan_key_other input fs k hk]

theorem logStepValue_key_other (input : List Char) (fs : List (List Char × Json))
    (k : List Char) (hk : k ≠ kValue) :
    getKey (logStepValue input fs) k = getKey fs k := by
  unfold logStepValue
  cases hget : getKey fs kValue with
  | some v => exact getKey_setKey_ne fs kValue k _ hk
  | none => exact getKey_setKey_ne fs kValue k _ hk

theorem logStepNotes_key_other (fs : List (List Char × Json))
    (k : List Char) (hk : k ≠ kNotes) :
    getKey (logStepNotes fs) k = getKey fs k := by
  unfold logStepNotes
  cases hget : getKey fs kNotes with
  | none => rfl
  | some v =>
    cases v with
    | null => rfl
    | bool b => exact getKey_setKey_ne fs kNotes k _ hk
    | num q => exact getKey_setKey_ne fs kNotes k _ hk
    | str s => exact getKey_setKey_ne fs kNotes k _ hk
    | arr xs => exact getKey_setKey_ne fs kNotes k _ hk
    | obj ox => exact getKey_setKey_ne fs kNotes k _ hk

theorem logStepType_post (input : List Char) (fs : List (List Char × Json)) :
    truthyGet (logStepType input fs) kType = true ∨
    (scanKeyword (lower input) = none ∧ getKey (logStepType input fs) kType ≠ none) := by
  unfold logStepType
  by_cases ht : truthyGet fs kType
  · rw [if_pos ht]
    exact Or.inl ht
  · rw [if_neg ht]
    cases hscan : scanKeyword (lower input) with
    | some mapped =>
      left
      simp only [truthyGet, logStepDefault, logStepScan, hscan, getKey_setKey_self]
      simp [Json.truthy, scanKeyword_nonempty _ _ hscan]
    | none =>
      cases hget : getKey fs kType with
      | some v =>
        right
        refine ⟨rfl, ?_⟩
        simp only [logStepDefault, logStepScan, hscan, hget]
        simp
      | none =>
        left
        simp only [truthyGet, logStepDefault, logStepScan, hscan, hget, getKey_setKey_self]
        simp [Json.truthy, chars]

theorem logStepType_fixed (input : List Char) (G : List (List Char × Json))
    (h : truthyGet G kType = true ∨
      (scanKeyword (lower input) = none ∧ getKey G kType ≠ none)) :
    logStepType input G = G := by
  unfold logStepType
  rcases h with h | ⟨hscan, hget⟩
  · rw [if_pos h]
  · by_cases ht : truthyGet G kType
    · rw [if_pos ht]
    · rw [if_neg ht]
      unfold logStepScan
      rw [hscan]
      unfold logStepDefault
      cases hg : getKey G kType with
      | some v => rfl
      | none => exact absurd hg hget

theorem logStepValue_post (input : List Char) (fs : List (List Char × Json)) :
    ∃ s, getKey (logStepValue input fs) kValue = some (Json.str s) := by
  unfold logStepValue
  cases hget : getKey fs kValue with
  | some v => exact ⟨_, getKey_setKey_self fs kValue _⟩
  | none => exact ⟨_, getKey_setKey_self fs kValue _⟩

theorem logStepValue_fixed (input : List Char) (G : List (List Char × Json))
    (h : ∃ s, getKey G kValue = some (Json.str s)) : logStepValue input G = G := by
  obtain ⟨s, hs⟩ := h
  unfold logStepValue
  rw [hs]
  exact setKey_getKey_eq G kValue _ hs

theorem logStepNotes_post (fs : List (List Char × Json)) :
    getKey (logStepNotes fs) kNotes = none ∨
    getKey (logStepNotes fs) kNotes = some Json.null ∨
    ∃ s, getKey (logStepNotes fs) kNotes = some (Json.str s) := by
  unfold logStepNotes
  cases hget : getKey fs kNotes with
  | none => exact Or.inl hget
  | some v =>
    cases v with
    | null => exact Or.inr (Or.inl hget)
    | bool b => exact Or.inr (Or.inr ⟨_, getKey_setKey_self fs kNotes _⟩)
    | num q => exact Or.inr (Or.inr ⟨_, getKey_setKey_self fs kNotes _⟩)
    | str s => exact Or.inr (Or.inr ⟨_, getKey_setKey_self fs kNotes _⟩)
    | arr xs => exact Or.inr (Or.inr ⟨_, getKey_setKey_self fs kNotes _⟩)
    | obj ox => exact Or.inr (Or.inr ⟨_, getKey_setKey_self fs kNotes _⟩)

theorem logStepNotes_fixed (G : List (List Char × Json))
    (h : getKey G kNotes = none ∨ getKey G kNotes = some Json.null ∨
      ∃ s, getKey G kNotes = some (Json.str s)) : logStepNotes G = G := by
  unfold logStepNotes
  rcases h with h | h | ⟨s, h⟩
  · rw [h]
  · rw [h]
  · rw [h]
    exact setKey_getKey_eq G kNotes _ h

theorem normalizeLog_obj (input : List Char) (d o : Json)
    (h : normalizeLog input d = Except.ok o) : ∃ fs, d = Json.obj fs := by
  cases d with
  | obj fs => exact ⟨fs, rfl⟩
  | null => simp [normalizeLog] at h
  | bool b => simp [normalizeLog] at h
  | num q => simp [normalizeLog] at h
  | str s => simp [normalizeLog] at h
  | arr xs => simp [normalizeLog] at h

theorem normalizeLog_idem (input : List Char) (d o : Json)
    (h : normalizeLog input d = Except.ok o) : normalizeLog input o = Except.ok o := by
  obtain ⟨fs, rfl⟩ := normalizeLog_obj input d o h
  have ho : o = Json.obj (logStepNotes (logStepValue input (logStepType input fs))) := by
    unfold normalizeLog at h
    injection h with h2
    exact h2.symm
  subst ho
  have hGA : getKey (logStepNotes (logStepValue input (logStepType input fs))) kType =
      getKey (logStepType input fs) kType := by
    rw [logStepNotes_key_other _ kType (by decide),
      logStepValue_key_other input _ kType (by decide)]
  have h1 : logStepType input (logStepNotes (logStepValue input (logStepType input fs))) =
      logStepNotes (logStepValue input (logStepType input fs)) := by
    apply logStepType_fixed
    rcases logStepType_post input fs with hp | ⟨hscan, hget⟩
    · left
      rw [truthyGet_congr _ _ kType hGA]
      exact hp
    · right
      refine ⟨hscan, ?_⟩
      rw [hGA]
      exact hget
  have h2 : logStepValue input (logStepNotes (logStepValue input (logStepType input fs))) =
      logStepNotes (logStepValue input (logStepType input fs)) := by
    apply logStepValue_fixed
    obtain ⟨s, hs⟩ := logStepValue_post input (logStepType input fs)
    refine ⟨s, ?_⟩
    rw [logStepNotes_key_other _ kValue (by decide)]
    exact hs
  have h3 : logStepNotes (logStepNotes (logStepValue input (logStepType input fs))) =
      logStepNotes (logStepValue input (logStepType input fs)) :=
    logStepNotes_fixed _ (logStepNotes_post (logStepValue input (logStepType input fs)))
  show Except.ok (Json.obj (logStepNotes (logStepValue input (logStepType input
    (logStepNotes (logStepValue input (logStepType input fs))))))) = _
  rw [h1, h2, h3]



theorem pyAddDays_fields (dt d' : PyDateTime) (n : ℕ) (h : pyAddDays dt n = some d') :
    d'.hour = dt.hour ∧ d'.minute = dt.minute ∧ d'.second = dt.second ∧
    d'.microsecond = dt.microsecond ∧ d'.tzMinutes = dt.tzMinutes := by
  simp only [pyAddDays] at h
  split at h
  · injection h with h2
    subst h2
    exact ⟨rfl, rfl, rfl, rfl, rfl⟩
  · cases h

theorem timeOkB_pyAddDays (dt d' : PyDateTime) (n : ℕ) (h : pyAddDays dt n = some d')
    (ht : timeOkB dt = true) : timeOkB d' = true := by
  obtain ⟨h1, h2, h3, h4, h5⟩ := pyAddDays_fields dt d' n h
  unfold timeOkB at ht ⊢
  rw [h1, h2, h3, h4, h5]
  exact ht

theorem inferDueDate_ok_some (today : PyDateTime) (input : List Char) (dt : PyDateTime)
    (h : inferDueDate today input = Except.ok (some dt)) (ht : timeOkB today = true) :
    timeOkB dt = true := by
  unfold inferDueDate at h
  cases hday : inferDueDays input with
  | none => rw [hday] at h; simp at h
  | some n =>
    simp only [hday] at h
    cases hadd : pyAddDays today n with
    | none => simp only [hadd] at h; cases h
    | some d' =>
      simp only [hadd] at h
      injection h with h2
      injection h2 with h3
      rw [← h3]
      exact timeOkB_pyAddDays today d' n hadd ht

theorem memoFields_title (input : List Char) (fs : List (List Char × Json))
    (pd : Option PyDateTime) :
    getKey (memoFields input fs pd) kTitle = some (Json.str (memoTitle input fs)) := rfl

theorem memoFields_notes (input : List Char) (fs : List (List Char × Json))
    (pd : Option PyDateTime) :
    getKey (memoFields input fs pd) kNotes = some (Json.str (memoNotes input fs)) := rfl

theorem memoFields_desc (input : List Char) (fs : List (List Char × Json))
    (pd : Option PyDateTime) :
    getKey (memoFields input fs pd) kDescription = none := rfl

theorem memoFields_due (input : List Char) (fs : List (List Char × Json))
    (pd : Option PyDateTime) :
    getKey (memoFields input fs pd) kDueDate =
      some (pd.elim Json.null (fun dt => Json.str (isoformat dt))) := rfl

theorem memoTitle_strip_image (input : List Char) (fs : List (List Char × Json)) :
    strip (memoTitle input fs) = memoTitle input fs :=
  strip_of_strip_image _ _ rfl

theorem memoNotes_strip_image (input : List Char) (fs : List (List Char × Json)) :
    strip (memoNotes input fs) = memoNotes input fs := by
  unfold memoNotes
  split
  · exact strip_of_strip_image _ _ rfl
  · exact strip_of_strip_image _ _ rfl

theorem memoNotes_empty (input : List Char) (fs : List (List Char × Json))
    (h : memoNotes input fs = []) : strip input = [] := by
  unfold memoNotes at h
  split at h
  · exact h
  · rename_i hne
    rw [h] at hne
    simp at hne

theorem memoTitle_fields (input : List Char) (fs : List (List Char × Json))
    (pd : Option PyDateTime) :
    memoTitle input (memoFields input fs pd) =
      (if (memoTitle input fs).isEmpty then strip input else memoTitle input fs) := by
  show strip (pyStr (pyOr (getKey (memoFields input fs pd) kTitle) (.str input))) = _
  rw [memoFields_title]
  by_cases hts : (memoTitle input fs).isEmpty
  · rw [if_pos hts]
    simp only [pyOr, Json.truthy, hts]
    rfl
  · rw [if_neg hts]
    have hb : (!(memoTitle input fs).isEmpty) = true := by
      simp [hts]
    simp only [pyOr, Json.truthy, hb, if_pos]
    exact memoTitle_strip_image input fs

theorem memoNotes_fields (input : List Char) (fs : List (List Char × Json))
    (pd : Option PyDateTime) :
    memoNotes input (memoFields input fs pd) = memoNotes input fs := by
  show (if (strip (pyStr (pyOr (getKey (memoFields input fs pd) kNotes)
      (pyOr (getKey (memoFields input fs pd) kDescription) (.str []))))).isEmpty then
      strip input
    else strip (pyStr (pyOr (getKey (memoFields input fs pd) kNotes)
      (pyOr (getKey (memoFields input fs pd) kDescription) (.str []))))) =
    memoNotes input fs
  rw [memoFields_notes, memoFields_desc]
  by_cases hne : (memoNotes input fs).isEmpty
  · have hn : memoNotes input fs = [] := by
      cases hx : memoNotes input fs
      · rfl
      · rw [hx] at hne; simp at hne
    have hsi : strip input = [] := memoNotes_empty input fs hn
    rw [hn]
    have h1 : strip (pyStr (pyOr (some (Json.str ([] : List Char)))
        (pyOr none (Json.str [])))) = ([] : List Char) := rfl
    rw [h1]
    simp [hsi]
  · have hpy : pyOr (some (Json.str (memoNotes input fs))) (pyOr none (Json.str [])) =
        Json.str (memoNotes input fs) := by
      simp only [pyOr, Json.truthy]
      rw [if_pos (by simp [hne])]
    rw [hpy]
    rw [show pyStr (Json.str (memoNotes input fs)) = memoNotes input fs from rfl]
    rw [memoNotes_strip_image]
    rw [if_neg (by simp [hne])]



theorem memoDueE_ok_none (today : PyDateTime) (input : List Char) (m : Json)
    (h : memoDueE today input m = Except.ok none) :
    inferDueDate today input = Except.ok none := by
  unfold memoDueE at h
  cases hdr : (match m with | Json.obj fs => getKey fs kDueDate | _ => none) with
  | none => simp only [hdr] at h; exact h
  | some v =>
    simp only [hdr] at h
    cases v with
    | str s =>
      cases hp : parseIsoDateStr s with
      | some d => simp only [hp] at h; simp at h
      | none => simp only [hp] at h; exact h
    | null => exact h
    | bool b => exact h
    | num q => exact h
    | arr xs => exact h
    | obj ox => exact h

theorem memoDueE_ok_some (today : PyDateTime) (input : List Char) (m : Json)
    (dt : PyDateTime) (h : memoDueE today input m = Except.ok (some dt)) :
    validDtB dt = true ∨ inferDueDate today input = Except.ok (some dt) := by
  unfold memoDueE at h
  cases hdr : (match m with | Json.obj fs => getKey fs kDueDate | _ => none) with
  | none => simp only [hdr] at h; exact Or.inr h
  | some v =>
    simp only [hdr] at h
    cases v with
    | str s =>
      cases hp : parseIsoDateStr s with
      | some d =>
        simp only [hp] at h
        have hd : d = dt := by
          injection h with h2
          exact Option.some.inj h2
        left
        rw [← hd]
        exact parseIsoDateStr_some_valid s d hp
      | none => simp only [hp] at h; exact Or.inr h
    | null => exact Or.inr h
    | bool b => exact Or.inr h
    | num q => exact Or.inr h
    | arr xs => exact Or.inr h
    | obj ox => exact Or.inr h

theorem normalizeMemo_idem (today : PyDateTime) (input : List Char) (m : Json)
    (fs' : List (List Char × Json)) (htoday : timeOkB today = true)
    (h : normalizeMemo today input m = Except.ok (Json.obj fs'))
    (htitle : getKey fs' kTitle ≠ some (Json.str []) ∨ strip input = []) :
    normalizeMemo today input (Json.obj fs') = Except.ok (Json.obj fs') := by
  unfold normalizeMemo at h
  cases hdue : memoDueE today input m with
  | error e => rw [hdue] at h; cases h
  | ok pd =>
    rw [hdue] at h
    cases m with
    | obj fs =>
      have hfs : fs' = memoFields input fs pd := by
        injection h with h2
        injection h2 with h3
        exact h3.symm
      subst hfs
      have htc : memoTitle input fs ≠ [] ∨ strip input = [] := by
        rcases htitle with ht | ht
        · left
          intro he
          apply ht
          rw [memoFields_title, he]
        · exact Or.inr ht
      have htit : memoTitle input (memoFields input fs pd) = memoTitle input fs := by
        rw [memoTitle_fields]
        rcases htc with ht | ht
        · rw [if_neg (by simpa using ht)]
        · by_cases he : (memoTitle input fs).isEmpty
          · rw [if_pos he, ht]
            cases hx : memoTitle input fs
            · rfl
            · rw [hx] at he; simp at he
          · rw [if_neg he]
      have hnot : memoNotes input (memoFields input fs pd) = memoNotes input fs :=
        memoNotes_fields input fs pd
      have hdue2 : ∃ pd2, memoDueE today input (Json.obj (memoFields input fs pd)) =
          Except.ok pd2 ∧
          pd2.elim Json.null (fun dt => Json.str (isoformat dt)) =
          pd.elim Json.null (fun dt => Json.str (isoformat dt)) := by
        cases pd with
        | none =>
          refine ⟨none, ?_, rfl⟩
          have hinf : inferDueDate today input = Except.ok none :=
            memoDueE_ok_none today input (Json.obj fs) hdue
          have hstep : memoDueE today input (Json.obj (memoFields input fs none)) =
              inferDueDate today input := rfl
          rw [hstep]
          exact hinf
        | some dt =>
          rcases memoDueE_ok_some today input (Json.obj fs) dt hdue with hv | hinf
          · refine ⟨some dt, ?_, rfl⟩
            have hstep : memoDueE today input (Json.obj (memoFields input fs (some dt))) =
                (match parseIsoDateStr (isoformat dt) with
                 | some d => Except.ok (some d)
                 | none => inferDueDate today input) := rfl
            rw [hstep, parseIsoDateStr_isoformat_of_valid dt hv]
          · have htdt : timeOkB dt = true := inferDueDate_ok_some today input dt hinf htoday
            have hstep : memoDueE today input (Json.obj (memoFields input fs (some dt))) =
                (match parseIsoDateStr (isoformat dt) with
                 | some d => Except.ok (some d)
                 | none => inferDueDate today input) := rfl
            rcases parseIsoDateStr_isoformat_cases dt htdt with hc | ⟨dt', hc, hiso⟩
            · refine ⟨some dt, ?_, rfl⟩
              rw [hstep, hc]
              exact hinf
            · refine ⟨some dt', ?_, ?_⟩
              · rw [hstep, hc]
              · simp [Option.elim, hiso]
      obtain ⟨pd2, hd2, hdve⟩ := hdue2
      have hlist : memoFields input (memoFields input fs pd) pd2 = memoFields input fs pd := by
        show [(kTitle, Json.str (memoTitle input (memoFields input fs pd))),
              (kNotes, Json.str (memoNotes input (memoFields input fs pd))),
              (kDueDate, pd2.elim Json.null (fun dt => Json.str (isoformat dt))),
              (kSource, Json.str (chars "ai"))] = memoFields input fs pd
        rw [htit, hnot, hdve]
        rfl
      unfold normalizeMemo
      rw [hd2]
      show Except.ok (Json.obj (memoFields input (memoFields input fs pd) pd2)) =
        Except.ok (Json.obj (memoFields input fs pd))
      rw [hlist]
    | null => simp at h
    | bool b => simp at h
    | num q => simp at h
    | str s => simp at h
    | arr xs => simp at h

/-! ### `parseCore` branch inversion -/

theorem parseCore_shape (today : PyDateTime) (input : List Char)
    (fs : List (List Char × Json)) (doc : Json)
    (h : parseCore today input (Json.obj fs) = Except.ok doc) :
    ∃ i fs', doc = Json.obj fs' ∧ getKey fs' kIntent = some (Json.str i) ∧
      ((i = chars "LOG" ∧ getKey fs' kLogDetails ≠ none ∧
          ∀ k, k ≠ kIntent → k ≠ kLogDetails → getKey fs' k = getKey fs k) ∨
       (i = chars "EXPENSE" ∧ getKey fs' kExpenseDetails ≠ none ∧
          ∀ k, k ≠ kIntent → k ≠ kExpenseDetails → getKey fs' k = getKey fs k) ∨
       (i = chars "MEMO" ∧ getKey fs' kMemoDetails ≠ none ∧
          ∀ k, k ≠ kIntent → k ≠ kMemoDetails → getKey fs' k = getKey fs k) ∨
       (i ≠ chars "LOG" ∧ i ≠ chars "EXPENSE" ∧ i ≠ chars "MEMO" ∧
          ∀ k, k ≠ kIntent → getKey fs' k = getKey fs k)) := by
  unfold parseCore at h
  simp only [Bind.bind, Except.bind] at h
  cases hio : pyOr (getKey fs kIntent) (Json.str (chars "UNKNOWN")) with
  | null => simp only [hio] at h; exact Except.noConfusion h
  | bool b => simp only [hio] at h; exact Except.noConfusion h
  | num q => simp only [hio] at h; exact Except.noConfusion h
  | arr xs => simp only [hio] at h; exact Except.noConfusion h
  | obj ox => simp only [hio] at h; exact Except.noConfusion h
  | str s =>
    simp only [hio] at h
    by_cases hL : upper s = chars "LOG"
    · rw [if_pos hL] at h
      cases hnl : normalizeLog input
          (pyOr (getKey (setKey fs kIntent (Json.str (upper s))) kLogDetails) (Json.obj [])) with
      | error e => simp only [hnl, Except.bind] at h; exact Except.noConfusion h
      | ok d =>
        simp only [hnl, Except.bind] at h
        have hdoc : doc =
            Json.obj (setKey (setKey fs kIntent (Json.str (upper s))) kLogDetails d) := by
          injection h with h2
          exact h2.symm
        subst hdoc
        refine ⟨chars "LOG", _, rfl, ?_, Or.inl ⟨rfl, ?_, ?_⟩⟩
        · rw [getKey_setKey_ne _ kLogDetails kIntent _ (by decide), getKey_setKey_self, hL]
        · rw [getKey_setKey_self]; simp
        · intro k hk1 hk2
          rw [getKey_setKey_ne _ kLogDetails k _ hk2, getKey_setKey_ne _ kIntent k _ hk1]
    · rw [if_neg hL] at h
      by_cases hE : upper s = chars "EXPENSE"
      · rw [if_pos hE] at h
        cases hne : normalizeExpense
            (pyOr (getKey (setKey fs kIntent (Json.str (upper s))) kExpenseDetails)
              (Json.obj [])) with
        | error e => simp only [hne, Except.bind] at h; exact Except.noConfusion h
        | ok d =>
          simp only [hne, Except.bind] at h
          have hdoc : doc =
              Json.obj (setKey (setKey fs kIntent (Json.str (upper s))) kExpenseDetails d) := by
            injection h with h2
            exact h2.symm
          subst hdoc
          refine ⟨chars "EXPENSE", _, rfl, ?_, Or.inr (Or.inl ⟨rfl, ?_, ?_⟩)⟩
          · rw [getKey_setKey_ne _ kExpenseDetails kIntent _ (by decide), getKey_setKey_self, hE]
          · rw [getKey_setKey_self]; simp
          · intro k hk1 hk2
            rw [getKey_setKey_ne _ kExpenseDetails k _ hk2, getKey_setKey_ne _ kIntent k _ hk1]
      · rw [if_neg hE] at h
        by_cases hM : upper s = chars "MEMO"
        · rw [if_pos hM] at h
          simp only [Except.bind, if_true] at h
          cases hnm : normalizeMemo today input
              (pyOr (getKey (setKey fs kIntent (Json.str (upper s))) kMemoDetails)
                (Json.obj [])) with
          | error e => simp only [hnm, Except.bind] at h; exact Except.noConfusion h
          | ok mj =>
            simp only [hnm, Except.bind] at h
            have hdoc : doc = Json.obj (setKey (setKey (setKey fs kIntent
                (Json.str (upper s))) kIntent (Json.str (chars "MEMO"))) kMemoDetails mj) := by
              injection h with h2
              exact h2.symm
            subst hdoc
            refine ⟨chars "MEMO", _, rfl, ?_, Or.inr (Or.inr (Or.inl ⟨rfl, ?_, ?_⟩))⟩
            · rw [getKey_setKey_ne _ kMemoDetails kIntent _ (by decide), getKey_setKey_self]
            · rw [getKey_setKey_self]; simp
            · intro k hk1 hk2
              rw [getKey_setKey_ne _ kMemoDetails k _ hk2, getKey_setKey_ne _ kIntent k _ hk1,
                getKey_setKey_ne _ kIntent k _ hk1]
        · rw [if_neg hM] at h
          by_cases hU : upper s = chars "UNKNOWN"
          · rw [if_pos hU] at h
            cases hinf : inferDueDate today input with
            | error e => simp only [hinf, Except.bind] at h; exact Except.noConfusion h
            | ok o =>
              simp only [hinf, Except.bind] at h
              cases o with
              | some dtv =>
                simp only [Option.isSome_some, if_true] at h
                cases hnm : normalizeMemo today input
                    (pyOr (getKey (setKey fs kIntent (Json.str (upper s))) kMemoDetails)
                      (Json.obj [])) with
                | error e => simp only [hnm, Except.bind] at h; exact Except.noConfusion h
                | ok mj =>
                  simp only [hnm, Except.bind] at h
                  have hdoc : doc = Json.obj (setKey (setKey (setKey fs kIntent
                      (Json.str (upper s))) kIntent (Json.str (chars "MEMO")))
                      kMemoDetails mj) := by
                    injection h with h2
                    exact h2.symm
                  subst hdoc
                  refine ⟨chars "MEMO", _, rfl, ?_, Or.inr (Or.inr (Or.inl ⟨rfl, ?_, ?_⟩))⟩
                  · rw [getKey_setKey_ne _ kMemoDetails kIntent _ (by decide),
                      getKey_setKey_self]
                  · rw [getKey_setKey_self]; simp
                  · intro k hk1 hk2
                    rw [getKey_setKey_ne _ kMemoDetails k _ hk2,
                      getKey_setKey_ne _ kIntent k _ hk1,
                      getKey_setKey_ne _ kIntent k _ hk1]
              | none =>
                simp only [Option.isSome_none, Bool.false_eq_true, if_false] at h
                have hdoc : doc = Json.obj (setKey fs kIntent (Json.str (upper s))) := by
                  injection h with h2
                  exact h2.symm
                subst hdoc
                refine ⟨upper s, _, rfl, getKey_setKey_self fs kIntent _,
                  Or.inr (Or.inr (Or.inr ⟨hL, hE, hM, ?_⟩))⟩
                intro k hk1
                exact getKey_setKey_ne _ kIntent k _ hk1
          · rw [if_neg hU] at h
            simp only [Except.bind, Bool.false_eq_true, if_false] at h
            have hdoc : doc = Json.obj (setKey fs kIntent (Json.str (upper s))) := by
              injection h with h2
              exact h2.symm
            subst hdoc
            refine ⟨upper s, _, rfl, getKey_setKey_self fs kIntent _,
              Or.inr (Or.inr (Or.inr ⟨hL, hE, hM, ?_⟩))⟩
            intro k hk1
            exact getKey_setKey_ne _ kIntent k _ hk1

/-! ### Claim theorems (part 1) -/

/-- C4, amended: `_infer_due_date` recognizes, in priority order with first
match winning, 明天/"tomorrow" (+1), 后天 (+2), "in N day" case-insensitively
or "N天后" (+N), and 下周/"next week" (+7), else no date — and the resulting
`today + timedelta(days=n)` raises `OverflowError` (it does not merely leave
the date unresolved) when it passes the maximal `datetime` year 9999. -/
theorem C4_amended (today : PyDateTime) (text : List Char) :
    ((strContains text (chars "明天") = true ∨ strContains text (chars "tomorrow") = true) →
      inferDueDays text = some 1) ∧
    (strContains text (chars "明天") = false → strContains text (chars "tomorrow") = false →
      strContains text (chars "后天") = true → inferDueDays text = some 2) ∧
    (∀ n, strContains text (chars "明天") = false → strContains text (chars "tomorrow") = false →
      strContains text (chars "后天") = false → scanInDays text = some n →
      inferDueDays text = some n) ∧
    (∀ n, strContains text (chars "明天") = false → strContains text (chars "tomorrow") = false →
      strContains text (chars "后天") = false → scanInDays text = none →
      scanZhDays text = some n → inferDueDays text = some n) ∧
    (strContains text (chars "明天") = false → strContains text (chars "tomorrow") = false →
      strContains text (chars "后天") = false → scanInDays text = none →
      scanZhDays text = none →
      (strContains text (chars "下周") = true ∨
        strContains (lower text) (chars "next week") = true) →
      inferDueDays text = some 7) ∧
    (strContains text (chars "明天") = false → strContains text (chars "tomorrow") = false →
      strContains text (chars "后天") = false → scanInDays text = none →
      scanZhDays text = none → strContains text (chars "下周") = false →
      strContains (lower text) (chars "next week") = false →
      inferDueDays text = none) ∧
    (∀ n, inferDueDays text = some n →
      (∀ d, pyAddDays today n = some d → inferDueDate today text = Except.ok (some d)) ∧
      (pyAddDays today n = none → inferDueDate today text = Except.error PyErr.overflowError)) := by
  refine ⟨?_, ?_, ?_, ?_, ?_, ?_, ?_⟩
  · intro h
    rcases h with h | h <;> simp [inferDueDays, h]
  · intro h1 h2 h3
    simp [inferDueDays, h1, h2, h3]
  · intro n h1 h2 h3 h4
    simp [inferDueDays, h1, h2, h3, h4]
  · intro n h1 h2 h3 h4 h5
    simp [inferDueDays, h1, h2, h3, h4, h5]
  · intro h1 h2 h3 h4 h5 h6
    rcases h6 with h6 | h6 <;> simp [inferDueDays, h1, h2, h3, h4, h5, h6]
  · intro h1 h2 h3 h4 h5 h6 h7
    simp [inferDueDays, h1, h2, h3, h4, h5, h6, h7]
  · intro n hn
    constructor
    · intro d hd
      unfold inferDueDate
      rw [hn]
      simp only [hd]
    · intro hd
      unfold inferDueDate
      rw [hn]
      simp only [hd]

/-- C5, confirmed: `_parse_iso_date` first attempts a full
`datetime.fromisoformat` parse of the dueDate string (after the `Z` →
`+00:00` rewrite), on failure retries on the portion before the first `'T'`,
and raises nothing; at the memo normalizer a successfully parsed explicit
dueDate takes precedence, while an unparseable one falls through to implicit
inference from the raw input. -/
theorem C5_explicit_date (today : PyDateTime) (input : List Char) :
    (∀ s d, fromIso (replaceZ s) = some d → parseIsoDateStr s = some d) ∧
    (∀ s, s.isEmpty = false → fromIso (replaceZ s) = none →
      parseIsoDateStr s = fromIso ((replaceZ s).takeWhile (fun c => c ≠ 'T'))) ∧
    (∀ fs s d, getKey fs kDueDate = some (Json.str s) → parseIsoDateStr s = some d →
      normalizeMemo today input (Json.obj fs) =
        Except.ok (Json.obj (memoFields input fs (some d)))) ∧
    (∀ fs s o, getKey fs kDueDate = some (Json.str s) → parseIsoDateStr s = none →
      inferDueDate today input = Except.ok o →
      normalizeMemo today input (Json.obj fs) =
        Except.ok (Json.obj (memoFields input fs o))) := by
  refine ⟨?_, ?_, ?_, ?_⟩
  · intro s d hf
    cases hs : s with
    | nil =>
      subst hs
      have hnone : fromIso (replaceZ ([] : List Char)) = none := rfl
      rw [hnone] at hf
      cases hf
    | cons c t =>
      unfold parseIsoDateStr
      rw [if_neg (by subst hs; simp), ← hs, hf]
      rfl
  · intro s hs hf
    unfold parseIsoDateStr
    rw [if_neg (by rw [hs]; exact fun hc => nomatch hc), hf]
    rfl
  · intro fs s d hget hp
    unfold normalizeMemo memoDueE
    simp only [hget, hp]
  · intro fs s o hget hp hinf
    unfold normalizeMemo memoDueE
    simp only [hget, hp, hinf]



/-- C1, amended: the uppercased explicit intent is used **whatever** it is —
an unrecognized value like `FOO` is not treated as absent, it is stored and
routed to the fallthrough branch; only when the intent field is missing (or
falsy) does the `UNKNOWN` default apply, and then a resolvable date in the
raw input upgrades the intent to `MEMO`, otherwise it stays `UNKNOWN`. -/
theorem C1_amended (today : PyDateTime) (input : List Char) (fs : List (List Char × Json)) :
    (∀ s, getKey fs kIntent = some (Json.str s) → s.isEmpty = false →
      upper s ≠ chars "LOG" → upper s ≠ chars "EXPENSE" → upper s ≠ chars "MEMO" →
      upper s ≠ chars "UNKNOWN" →
      parseCore today input (Json.obj fs) =
        Except.ok (Json.obj (setKey fs kIntent (Json.str (upper s))))) ∧
    (getKey fs kIntent = none → inferDueDays input = none →
      parseCore today input (Json.obj fs) =
        Except.ok (Json.obj (setKey fs kIntent (Json.str (chars "UNKNOWN"))))) ∧
    (∀ n d mj, getKey fs kIntent = none → inferDueDays input = some n →
      pyAddDays today n = some d →
      normalizeMemo today input (pyOr (getKey (setKey fs kIntent
        (Json.str (chars "UNKNOWN"))) kMemoDetails) (Json.obj [])) = Except.ok mj →
      parseCore today input (Json.obj fs) = Except.ok (Json.obj
        (setKey (setKey (setKey fs kIntent (Json.str (chars "UNKNOWN"))) kIntent
          (Json.str (chars "MEMO"))) kMemoDetails mj))) := by
  have hup : upper (chars "UNKNOWN") = chars "UNKNOWN" := by decide
  refine ⟨?_, ?_, ?_⟩
  · intro s hget hne h1 h2 h3 h4
    unfold parseCore
    simp only [Bind.bind, Except.bind]
    have hio : pyOr (getKey fs kIntent) (Json.str (chars "UNKNOWN")) = Json.str s := by
      rw [hget]
      simp [pyOr, Json.truthy, hne]
    simp only [hio]
    rw [if_neg h1, if_neg h2, if_neg h3, if_neg h4]
    simp only [Except.bind, Bool.false_eq_true, if_false]
  · intro hget hday
    unfold parseCore
    simp only [Bind.bind, Except.bind]
    have hio : pyOr (getKey fs kIntent) (Json.str (chars "UNKNOWN")) =
        Json.str (chars "UNKNOWN") := by
      rw [hget]; rfl
    have hinf : inferDueDate today input = Except.ok none := by
      unfold inferDueDate
      rw [hday]
    simp only [hio, hup]
    simp only [hinf, if_true, Option.isSome_none, Bool.false_eq_true, if_false]
    rw [if_neg (show ¬chars "UNKNOWN" = chars "LOG" from by decide),
      if_neg (show ¬chars "UNKNOWN" = chars "EXPENSE" from by decide),
      if_neg (show ¬chars "UNKNOWN" = chars "MEMO" from by decide)]
  · intro n d mj hget hday hadd hmj
    unfold parseCore
    simp only [Bind.bind, Except.bind]
    have hio : pyOr (getKey fs kIntent) (Json.str (chars "UNKNOWN")) =
        Json.str (chars "UNKNOWN") := by
      rw [hget]; rfl
    have hinf : inferDueDate today input = Except.ok (some d) := by
      unfold inferDueDate
      rw [hday]
      simp only [hadd]
    simp only [hio, hup]
    simp only [hinf, if_true, Option.isSome_some, hmj]
    rw [if_neg (show ¬chars "UNKNOWN" = chars "LOG" from by decide),
      if_neg (show ¬chars "UNKNOWN" = chars "EXPENSE" from by decide),
      if_neg (show ¬chars "UNKNOWN" = chars "MEMO" from by decide)]

/-- C2, amended: whenever `parse` returns a document whose final intent is
`LOG`, `EXPENSE` or `MEMO`, the matching details key is present — but the
intent may also be any other uppercased string the model supplied, and a
details object for a *non*-matching intent supplied by the model is left in
the result rather than removed. -/
theorem C2_amended (today : PyDateTime) (input : List Char) (fs : List (List Char × Json))
    (doc : Json) (h : parseCore today input (Json.obj fs) = Except.ok doc) :
    ∃ fs', doc = Json.obj fs' ∧
      (getKey fs' kIntent = some (Json.str (chars "LOG")) → getKey fs' kLogDetails ≠ none) ∧
      (getKey fs' kIntent = some (Json.str (chars "EXPENSE")) →
        getKey fs' kExpenseDetails ≠ none) ∧
      (getKey fs' kIntent = some (Json.str (chars "MEMO")) → getKey fs' kMemoDetails ≠ none) := by
  obtain ⟨i, fs', hdoc, hint, hbr⟩ := parseCore_shape today input fs doc h
  refine ⟨fs', hdoc, ?_, ?_, ?_⟩
  · intro hgi
    rw [hint] at hgi
    have hi : i = chars "LOG" := by
      injection Option.some.inj hgi
    rcases hbr with ⟨_, hp, _⟩ | ⟨he, _, _⟩ | ⟨he, _, _⟩ | ⟨he, _, _, _⟩
    · exact hp
    · exact absurd (he.symm.trans hi) (by decide)
    · exact absurd (he.symm.trans hi) (by decide)
    · exact absurd hi he
  · intro hgi
    rw [hint] at hgi
    have hi : i = chars "EXPENSE" := by
      injection Option.some.inj hgi
    rcases hbr with ⟨he, _, _⟩ | ⟨_, hp, _⟩ | ⟨he, _, _⟩ | ⟨_, he, _, _⟩
    · exact absurd (he.symm.trans hi) (by decide)
    · exact hp
    · exact absurd (he.symm.trans hi) (by decide)
    · exact absurd hi he
  · intro hgi
    rw [hint] at hgi
    have hi : i = chars "MEMO" := by
      injection Option.some.inj hgi
    rcases hbr with ⟨he, _, _⟩ | ⟨he, _, _⟩ | ⟨_, hp, _⟩ | ⟨_, _, he, _⟩
    · exact absurd (he.symm.trans hi) (by decide)
    · exact absurd (he.symm.trans hi) (by decide)
    · exact hp
    · exact absurd hi he

/-- C3, amended: the expense normalizer coerces a present non-null amount
with `float(...)`, turning a coercion *failure* into `0.0`, but it preserves
any numeric value — including negative ones — and leaves an explicit `null`
amount untouched; `category` defaults to `Other` only when the key is
absent. -/
theorem C3_amended (fs : List (List Char × Json)) :
    normalizeExpense (Json.obj fs) =
      Except.ok (Json.obj (expStepCategory (expStepAmount fs))) ∧
    (∀ s, getKey fs kAmount = some (Json.str s) → strToFloat s = none →
      getKey (expStepCategory (expStepAmount fs)) kAmount = some (Json.num 0)) ∧
    (getKey fs kAmount = some Json.null →
      getKey (expStepCategory (expStepAmount fs)) kAmount = some Json.null) ∧
    (∀ q, getKey fs kAmount = some (Json.num q) →
      getKey (expStepCategory (expStepAmount fs)) kAmount = some (Json.num q)) ∧
    (getKey fs kCategory = none →
      getKey (expStepCategory (expStepAmount fs)) kCategory =
        some (Json.str (chars "Other"))) := by
  refine ⟨rfl, ?_, ?_, ?_, ?_⟩
  · intro s hget hsf
    rw [expStepCategory_key_other _ kAmount (by decide)]
    unfold expStepAmount
    have hv : (pyFloat (Json.str s)).getD 0 = 0 := by
      show (strToFloat s).getD 0 = 0
      rw [hsf]
      rfl
    simp only [hget, hv]
    exact getKey_setKey_self fs kAmount _
  · intro hget
    rw [expStepCategory_key_other _ kAmount (by decide)]
    unfold expStepAmount
    simp only [hget]
  · intro q hget
    rw [expStepCategory_key_other _ kAmount (by decide)]
    unfold expStepAmount
    simp only [hget]
    exact getKey_setKey_self fs kAmount _
  · intro hget
    unfold expStepCategory
    simp only [expStepAmount_key_other fs kCategory (by decide), hget]
    exact getKey_setKey_self _ kCategory _

/-- C6, amended: in the LOG normalizer an absent `type` is filled from the
first matching entry, in table order, of the bilingual keyword table applied
to the lowercased raw input (default `Note`); an *absent* `value` key is
replaced by the raw input, but a present value is only passed through
`str(...)` — so a model-supplied empty string stays empty. -/
theorem C6_amended (input : List Char) (fs : List (List Char × Json)) :
    normalizeLog input (Json.obj fs) =
      Except.ok (Json.obj (logStepNotes (logStepValue input (logStepType input fs)))) ∧
    (getKey fs kType = none →
      getKey (logStepNotes (logStepValue input (logStepType input fs))) kType =
        some (Json.str ((scanKeyword (lower input)).getD (chars "Note")))) ∧
    (∀ v, getKey fs kValue = some v →
      getKey (logStepNotes (logStepValue input (logStepType input fs))) kValue =
        some (Json.str (pyStr v))) ∧
    (getKey fs kValue = none →
      getKey (logStepNotes (logStepValue input (logStepType input fs))) kValue =
        some (Json.str input)) := by
  refine ⟨rfl, ?_, ?_, ?_⟩
  · intro hget
    rw [logStepNotes_key_other _ kType (by decide),
      logStepValue_key_other input _ kType (by decide)]
    have ht : truthyGet fs kType = false := by
      unfold truthyGet
      rw [hget]
    unfold logStepType
    rw [if_neg (by rw [ht]; exact fun hc => nomatch hc)]
    unfold logStepScan
    cases hscan : scanKeyword (lower input) with
    | some mapped =>
      unfold logStepDefault
      rw [getKey_setKey_self]
      rw [getKey_setKey_self]
      rfl
    | none =>
      unfold logStepDefault
      rw [hget]
      rw [getKey_setKey_self]
      rfl
  · intro v hget
    rw [logStepNotes_key_other _ kValue (by decide)]
    unfold logStepValue
    rw [logStepType_key_other input fs kValue (by decide), hget]
    exact getKey_setKey_self _ kValue _
  · intro hget
    rw [logStepNotes_key_other _ kValue (by decide)]
    unfold logStepValue
    rw [logStepType_key_other input fs kValue (by decide), hget]
    exact getKey_setKey_self _ kValue _


/-- C7, amended: `/parse` degrades an empty or undecodable model reply to
`{'intent': 'UNKNOWN'}` without error, but `/analyze` does **not** degrade —
the same two failure modes there raise `HTTPException(500)`, so it is not
true that every failure mode across both routes yields a default value. -/
theorem C7_amended (loads : List Char → Option Json) (today : PyDateTime)
    (input nowIso : List Char) :
    parseRoute loads today input [] = Except.ok unknownResult ∧
    (∀ t, t.isEmpty = false → loads (cleanJsonString t) = none →
      parseRoute loads today input t = Except.ok unknownResult) ∧
    analyzeRoute loads [] nowIso = Except.error PyErr.httpError500 ∧
    (∀ t, t.isEmpty = false → loads (cleanJsonString t) = none →
      analyzeRoute loads t nowIso = Except.error PyErr.httpError500) := by
  refine ⟨rfl, ?_, rfl, ?_⟩
  · intro t ht hl
    unfold parseRoute
    rw [if_neg (by rw [ht]; exact fun hc => nomatch hc)]
    simp only [hl]
  · intro t ht hl
    unfold analyzeRoute
    rw [if_neg (by rw [ht]; exact fun hc => nomatch hc)]
    simp only [hl]

/-- C8, amended: the LOG and EXPENSE normalizers are idempotent
unconditionally, and the MEMO normalizer is idempotent on its own output
except when the produced title is the empty string while the raw input strips
to something non-empty (a whitespace-only model title yields `title = ""`
once and `title = input.strip()` on the second run). -/
theorem C8_amended (today : PyDateTime) (input : List Char) (ht : timeOkB today = true) :
    (∀ d o, normalizeLog input d = Except.ok o → normalizeLog input o = Except.ok o) ∧
    (∀ d o, normalizeExpense d = Except.ok o → normalizeExpense o = Except.ok o) ∧
    (∀ m fs', normalizeMemo today input m = Except.ok (Json.obj fs') →
      (getKey fs' kTitle ≠ some (Json.str []) ∨ strip input = []) →
      normalizeMemo today input (Json.obj fs') = Except.ok (Json.obj fs')) :=
  ⟨fun d o h => normalizeLog_idem input d o h,
   fun d o h => normalizeExpense_idem d o h,
   fun m fs' h htl => normalizeMemo_idem today input m fs' ht h htl⟩

/-- C9, confirmed: the `/analyze` reply is defensively normalized — a missing
or empty summary becomes the fixed placeholder `No summary available.`, a
bare-string `risks`/`suggestions` value is wrapped into a one-element list,
and any other non-list value for those keys collapses to `[]`. -/
theorem C9_defensive_read (fs : List (List Char × Json)) (nowIso : List Char) :
    ∃ G, analyzeNormalize (Json.obj fs) nowIso = Json.obj G ∧
      (getKey fs kSummary = none ∨ getKey fs kSummary = some (Json.str []) →
        getKey G kSummary = some (Json.str (chars "No summary available."))) ∧
      (∀ s, getKey fs kRisks = some (Json.str s) →
        getKey G kRisks = some (Json.arr [Json.str s])) ∧
      (∀ v, getKey fs kRisks = some v → (∀ s, v ≠ Json.str s) → (∀ xs, v ≠ Json.arr xs) →
        getKey G kRisks = some (Json.arr [])) ∧
      (∀ s, getKey fs kSuggestions = some (Json.str s) →
        getKey G kSuggestions = some (Json.arr [Json.str s])) ∧
      (∀ v, getKey fs kSuggestions = some v → (∀ s, v ≠ Json.str s) →
        (∀ xs, v ≠ Json.arr xs) → getKey G kSuggestions = some (Json.arr [])) := by
  refine ⟨_, rfl, ?_, ?_, ?_, ?_, ?_⟩
  · intro h
    show some (summaryOr (analyzeSummaryRaw (Json.obj fs))) = _
    have hraw : analyzeSummaryRaw (Json.obj fs) = (getKey fs kSummary).getD Json.null := rfl
    rcases h with h | h
    · rw [hraw, h]
      rfl
    · rw [hraw, h]
      rfl
  · intro s h
    show some (listOr (wrapStr (analyzeListRaw (Json.obj fs) kRisks))) = _
    rw [show analyzeListRaw (Json.obj fs) kRisks = (getKey fs kRisks).getD (Json.arr [])
      from rfl, h]
    rfl
  · intro v h hs ha
    show some (listOr (wrapStr (analyzeListRaw (Json.obj fs) kRisks))) = _
    rw [show analyzeListRaw (Json.obj fs) kRisks = (getKey fs kRisks).getD (Json.arr [])
      from rfl, h]
    cases v with
    | str s => exact absurd rfl (hs s)
    | arr xs => exact absurd rfl (ha xs)
    | null => rfl
    | bool b => rfl
    | num q => rfl
    | obj ox => rfl
  · intro s h
    show some (listOr (wrapStr (analyzeListRaw (Json.obj fs) kSuggestions))) = _
    rw [show analyzeListRaw (Json.obj fs) kSuggestions =
      (getKey fs kSuggestions).getD (Json.arr []) from rfl, h]
    rfl
  · intro v h hs ha
    show some (listOr (wrapStr (analyzeListRaw (Json.obj fs) kSuggestions))) = _
    rw [show analyzeListRaw (Json.obj fs) kSuggestions =
      (getKey fs kSuggestions).getD (Json.arr []) from rfl, h]
    cases v with
    | str s => exact absurd rfl (hs s)
    | arr xs => exact absurd rfl (ha xs)
    | null => rfl
    | bool b => rfl
    | num q => rfl
    | obj ox => rfl

/-- C10, confirmed: when the sanitized model reply is a JSON object, `parse`
returns that same object with only the `intent` key and the details key
matching the final intent possibly rewritten; every other key keeps exactly
the value the model supplied. -/
theorem C10_frame (today : PyDateTime) (input : List Char) (fs : List (List Char × Json))
    (doc : Json) (h : parseCore today input (Json.obj fs) = Except.ok doc) :
    ∃ i fs', doc = Json.obj fs' ∧ getKey fs' kIntent = some (Json.str i) ∧
      ∀ k, k ≠ kIntent → detailKeyOf i ≠ some k → getKey fs' k = getKey fs k := by
  obtain ⟨i, fs', hdoc, hint, hbr⟩ := parseCore_shape today input fs doc h
  refine ⟨i, fs', hdoc, hint, ?_⟩
  intro k hk1 hk2
  rcases hbr with ⟨hi, _, hfr⟩ | ⟨hi, _, hfr⟩ | ⟨hi, _, hfr⟩ | ⟨h1, h2, h3, hfr⟩
  · refine hfr k hk1 ?_
    intro hkd
    apply hk2
    rw [hi, hkd]
    rfl
  · refine hfr k hk1 ?_
    intro hkd
    apply hk2
    rw [hi, hkd]
    rfl
  · refine hfr k hk1 ?_
    intro hkd
    apply hk2
    rw [hi, hkd]
    rfl
  · exact hfr k hk1

/-- C1 counterexample: the explicit intent `Foo` is uppercased to `FOO` and
returned as the final intent although it is none of the four known values. -/
theorem C1_counterexample :
    parseCore today0 (chars "hello") (Json.obj [(kIntent, Json.str (chars "Foo"))]) =
      Except.ok (Json.obj [(kIntent, Json.str (chars "FOO"))]) ∧
    ¬(chars "FOO" = chars "LOG" ∨ chars "FOO" = chars "EXPENSE" ∨
      chars "FOO" = chars "MEMO" ∨ chars "FOO" = chars "UNKNOWN") :=
  ⟨rfl, by decide⟩

/-- C1 witness: the amended theorem applied at the concrete document with
intent `Foo`. -/
theorem C1_amended_witness :
    parseCore today0 (chars "hello") (Json.obj [(kIntent, Json.str (chars "Foo"))]) =
      Except.ok (Json.obj (setKey [(kIntent, Json.str (chars "Foo"))] kIntent
        (Json.str (upper (chars "Foo"))))) :=
  (C1_amended today0 (chars "hello") [(kIntent, Json.str (chars "Foo"))]).1
    (chars "Foo") rfl rfl (by decide) (by decide) (by decide) (by decide)

/-- C2 counterexample: with intent `LOG` the model-supplied
`expenseDetails` object survives in the result, so a details object may be
present without its intent matching. -/
theorem C2_counterexample :
    parseCore today0 (chars "hello")
      (Json.obj [(kIntent, Json.str (chars "LOG")), (kExpenseDetails, Json.obj [])]) =
      Except.ok (Json.obj [(kIntent, Json.str (chars "LOG")),
        (kExpenseDetails, Json.obj []),
        (kLogDetails, Json.obj [(kType, Json.str (chars "Note")),
          (kValue, Json.str (chars "hello"))])]) := rfl

/-- C2 witness: the amended theorem applied at a concrete LOG parse. -/
theorem C2_amended_witness :
    ∃ fs', (Json.obj [(kIntent, Json.str (chars "LOG")),
        (kLogDetails, Json.obj [(kType, Json.str (chars "Note")),
          (kValue, Json.str (chars "hello"))])]) = Json.obj fs' ∧
      (getKey fs' kIntent = some (Json.str (chars "LOG")) → getKey fs' kLogDetails ≠ none) ∧
      (getKey fs' kIntent = some (Json.str (chars "EXPENSE")) →
        getKey fs' kExpenseDetails ≠ none) ∧
      (getKey fs' kIntent = some (Json.str (chars "MEMO")) → getKey fs' kMemoDetails ≠ none) :=
  C2_amended today0 (chars "hello") [(kIntent, Json.str (chars "LOG"))]
    (Json.obj [(kIntent, Json.str (chars "LOG")),
      (kLogDetails, Json.obj [(kType, Json.str (chars "Note")),
        (kValue, Json.str (chars "hello"))])]) rfl

/-- C3 counterexample: a model-supplied amount of `-5` is preserved as a
negative number in the EXPENSE output. -/
theorem C3_counterexample :
    normalizeExpense (Json.obj [(kAmount, Json.num (-5))]) =
      Except.ok (Json.obj [(kAmount, Json.num (-5)),
        (kCategory, Json.str (chars "Other"))]) ∧
    (-5 : ℚ) < 0 := ⟨rfl, by norm_num⟩

/-- C3 witness: the amended theorem applied at a document with a null
amount and no category. -/
theorem C3_amended_witness :
    normalizeExpense (Json.obj [(kAmount, Json.null)]) =
      Except.ok (Json.obj (expStepCategory (expStepAmount [(kAmount, Json.null)]))) ∧
    getKey (expStepCategory (expStepAmount [(kAmount, Json.null)])) kAmount =
      some Json.null ∧
    getKey (expStepCategory (expStepAmount [(kAmount, Json.null)])) kCategory =
      some (Json.str (chars "Other")) :=
  ⟨(C3_amended [(kAmount, Json.null)]).1,
   (C3_amended [(kAmount, Json.null)]).2.2.1 rfl,
   (C3_amended [(kAmount, Json.null)]).2.2.2.2 rfl⟩

/-- C4 counterexample: `in 3000000 days` matches the `in N day` pattern and
the `timedelta` addition overflows past year 9999, raising `OverflowError`
instead of leaving the date unresolved. -/
theorem C4_counterexample :
    scanInDays (chars "in 3000000 days") = some 3000000 ∧
    inferDueDate today0 (chars "in 3000000 days") = Except.error PyErr.overflowError :=
  ⟨rfl, rfl⟩

/-- C4 witness: the amended theorem applied at `in 3 days`, resolving to
three days after the fixed today. -/
theorem C4_amended_witness :
    inferDueDays (chars "in 3 days") = some 3 ∧
    inferDueDate today0 (chars "in 3 days") =
      Except.ok (some ⟨2026, 10, 15, 0, 0, 0, 0, none⟩) := by
  have h3 := (C4_amended today0 (chars "in 3 days")).2.2.1 3 rfl rfl rfl rfl
  exact ⟨h3, ((C4_amended today0 (chars "in 3 days")).2.2.2.2.2.2 3 h3).1
    ⟨2026, 10, 15, 0, 0, 0, 0, none⟩ rfl⟩

/-- C5 witness: the theorem applied at a concrete memo whose explicit
dueDate `2026-12-01` parses and takes precedence over the `tomorrow` in the
raw input. -/
theorem C5_explicit_date_witness :
    normalizeMemo today0 (chars "feed the cat tomorrow")
      (Json.obj [(kDueDate, Json.str (chars "2026-12-01"))]) =
      Except.ok (Json.obj (memoFields (chars "feed the cat tomorrow")
        [(kDueDate, Json.str (chars "2026-12-01"))]
        (some ⟨2026, 12, 1, 0, 0, 0, 0, none⟩))) :=
  (C5_explicit_date today0 (chars "feed the cat tomorrow")).2.2.1
    [(kDueDate, Json.str (chars "2026-12-01"))] (chars "2026-12-01")
    ⟨2026, 12, 1, 0, 0, 0, 0, none⟩ rfl rfl

/-- C6 counterexample: a model-supplied empty-string value stays empty in
the LOG output, so `value` can be empty. -/
theorem C6_counterexample :
    normalizeLog (chars "feed the cat")
      (Json.obj [(kValue, Json.str [])]) =
      Except.ok (Json.obj [(kValue, Json.str []),
        (kType, Json.str (chars "Feeding"))]) := rfl

/-- C6 witness: the amended theorem applied at input `hello` and an empty
details object. -/
theorem C6_amended_witness :
    normalizeLog (chars "hello") (Json.obj []) =
      Except.ok (Json.obj (logStepNotes (logStepValue (chars "hello")
        (logStepType (chars "hello") [])))) ∧
    getKey (logStepNotes (logStepValue (chars "hello") (logStepType (chars "hello") [])))
      kType = some (Json.str ((scanKeyword (lower (chars "hello"))).getD (chars "Note"))) ∧
    getKey (logStepNotes (logStepValue (chars "hello") (logStepType (chars "hello") [])))
      kValue = some (Json.str (chars "hello")) :=
  ⟨(C6_amended (chars "hello") []).1,
   (C6_amended (chars "hello") []).2.1 rfl,
   (C6_amended (chars "hello") []).2.2.2 rfl⟩

/-- C7 counterexample: an empty and an undecodable model reply on
`/analyze` both raise the 500 error while `/parse` degrades to `UNKNOWN`. -/
theorem C7_counterexample :
    analyzeRoute (fun _ => none) [] (chars "now") = Except.error PyErr.httpError500 ∧
    analyzeRoute (fun _ => none) (chars "junk") (chars "now") =
      Except.error PyErr.httpError500 ∧
    parseRoute (fun _ => none) today0 (chars "hi") [] = Except.ok unknownResult :=
  ⟨rfl, rfl, rfl⟩

/-- C7 witness: the amended theorem applied at an undecodable reply text. -/
theorem C7_amended_witness :
    parseRoute (fun _ => none) today0 (chars "hi") (chars "oops") =
      Except.ok unknownResult ∧
    analyzeRoute (fun _ => none) (chars "oops") (chars "now") =
      Except.error PyErr.httpError500 :=
  ⟨(C7_amended (fun _ => none) today0 (chars "hi") (chars "now")).2.1
      (chars "oops") rfl rfl,
   (C7_amended (fun _ => none) today0 (chars "hi") (chars "now")).2.2.2
      (chars "oops") rfl rfl⟩

/-- C8 counterexample: a whitespace-only model title normalizes to the
empty title once, and to the stripped raw input on the second run, so MEMO
normalization is not idempotent. -/
theorem C8_counterexample :
    normalizeMemo today0 (chars "x") (Json.obj [(kTitle, Json.str (chars " "))]) =
      Except.ok (Json.obj [(kTitle, Json.str []), (kNotes, Json.str (chars "x")),
        (kDueDate, Json.null), (kSource, Json.str (chars "ai"))]) ∧
    normalizeMemo today0 (chars "x") (Json.obj [(kTitle, Json.str []),
      (kNotes, Json.str (chars "x")), (kDueDate, Json.null),
      (kSource, Json.str (chars "ai"))]) =
      Except.ok (Json.obj [(kTitle, Json.str (chars "x")), (kNotes, Json.str (chars "x")),
        (kDueDate, Json.null), (kSource, Json.str (chars "ai"))]) ∧
    Json.str ([] : List Char) ≠ Json.str (chars "x") := by
  refine ⟨rfl, rfl, ?_⟩
  intro hEq
  injection hEq with h2
  exact List.noConfusion h2

/-- C8 witness: the amended theorem applied at a MEMO output with a
non-empty title, which re-normalizes to itself. -/
theorem C8_amended_witness :
    normalizeMemo today0 (chars "x")
      (Json.obj [(kTitle, Json.str (chars "t")), (kNotes, Json.str (chars "x")),
        (kDueDate, Json.null), (kSource, Json.str (chars "ai"))]) =
      Except.ok (Json.obj [(kTitle, Json.str (chars "t")), (kNotes, Json.str (chars "x")),
        (kDueDate, Json.null), (kSource, Json.str (chars "ai"))]) :=
  (C8_amended today0 (chars "x") rfl).2.2
    (Json.obj [(kTitle, Json.str (chars "t"))])
    [(kTitle, Json.str (chars "t")), (kNotes, Json.str (chars "x")),
      (kDueDate, Json.null), (kSource, Json.str (chars "ai"))]
    rfl
    (Or.inl (by
      intro hc
      have h1 : Json.str (chars "t") = Json.str [] := Option.some.inj hc
      injection h1 with h2
      exact List.noConfusion h2))

/-- C9 witness: the theorem applied at a reply with a bare-string risks
value, a numeric suggestions value and no summary. -/
theorem C9_defensive_read_witness :
    ∃ G, analyzeNormalize (Json.obj [(kRisks, Json.str (chars "obesity")),
        (kSuggestions, Json.num 5)]) (chars "now") = Json.obj G ∧
      getKey G kSummary = some (Json.str (chars "No summary available.")) ∧
      getKey G kRisks = some (Json.arr [Json.str (chars "obesity")]) ∧
      getKey G kSuggestions = some (Json.arr []) := by
  obtain ⟨G, hG, hsum, hwR, _, _, hcS⟩ :=
    C9_defensive_read [(kRisks, Json.str (chars "obesity")), (kSuggestions, Json.num 5)]
      (chars "now")
  exact ⟨G, hG, hsum (Or.inl rfl), hwR (chars "obesity") rfl,
    hcS (Json.num 5) rfl (fun s h => Json.noConfusion h) (fun xs h => Json.noConfusion h)⟩

/-- C10 witness: the frame theorem applied at a concrete EXPENSE parse
carrying an extra `confidence` key. -/
theorem C10_frame_witness :
    ∃ i fs', (Json.obj [(kIntent, Json.str (chars "EXPENSE")),
        (chars "confidence", Json.num 1),
        (kExpenseDetails, Json.obj [(kAmount, Json.num 3),
          (kCategory, Json.str (chars "Other"))])]) = Json.obj fs' ∧
      getKey fs' kIntent = some (Json.str i) ∧
      ∀ k, k ≠ kIntent → detailKeyOf i ≠ some k →
        getKey fs' k = getKey [(kIntent, Json.str (chars "EXPENSE")),
          (chars "confidence", Json.num 1),
          (kExpenseDetails, Json.obj [(kAmount, Json.num 3)])] k :=
  C10_frame today0 (chars "hi")
    [(kIntent, Json.str (chars "EXPENSE")), (chars "confidence", Json.num 1),
      (kExpenseDetails, Json.obj [(kAmount, Json.num 3)])]
    (Json.obj [(kIntent, Json.str (chars "EXPENSE")), (chars "confidence", Json.num 1),
      (kExpenseDetails, Json.obj [(kAmount, Json.num 3),
        (kCategory, Json.str (chars "Other"))])])
    rfl

end Petmon
